/-
  Verification of the core algorithms of the goldmine exercise-sheet
  renderer: post-render search-text extraction (search_utils.py), the TeX
  normalization and exercise-marker-injection passes
  (management/commands/render_series_html.py), and the render-job
  supervisor state machine (render_api.py / render_worker.py).

  Texts are modelled as lists of characters (Text := List Char).  Python
  line splitting is modelled for LF newlines, SHA-256 checksums are
  modelled by an injective tagging function (only determinism of the hash
  is used by any theorem), and wall-clock times are modelled as natural
  numbers of milliseconds (the 0.6 s flush interval becomes 600).
-/
import Mathlib

namespace Goldmine

abbrev Text := List Char

/-- The opening brace character (written via its code point). -/
def lbrace : Char := Char.ofNat 123

/-- The closing brace character (written via its code point). -/
def rbrace : Char := Char.ofNat 125

/-- Python str whitespace used by strip() / \s, restricted to ASCII. -/
def isPySpace (c : Char) : Bool :=
  c = ' ' || c = '\t' || c = '\n' || c = '\r' || c = Char.ofNat 11 || c = Char.ofNat 12

/-- Python str.strip(): drop leading and trailing whitespace. -/
def stripWs (t : Text) : Text :=
  ((t.dropWhile isPySpace).reverse.dropWhile isPySpace).reverse

/-- Python str.splitlines(keepends=True) for LF newlines. -/
def splitlinesKeep : Text → List Text
  | [] => []
  | c :: cs =>
    if c = '\n' then ['\n'] :: splitlinesKeep cs
    else
      match splitlinesKeep cs with
      | [] => [[c]]
      | l :: ls => (c :: l) :: ls

/-- Drop one trailing newline from a line, as splitlines() does. -/
def stripNl (l : Text) : Text :=
  if l.getLast? = some '\n' then l.dropLast else l

/-- Python str.splitlines() for LF newlines. -/
def splitlines (t : Text) : List Text :=
  (splitlinesKeep t).map stripNl

/-- First index at which pat occurs as a contiguous substring. -/
def findSub (pat : Text) : Text → Option Nat
  | [] => if pat.isEmpty then some 0 else none
  | c :: cs =>
    if pat.isPrefixOf (c :: cs) then some 0
    else (findSub pat cs).map (· + 1)

/-- Python "pat in t" substring containment. -/
def containsSub (pat t : Text) : Bool :=
  (findSub pat t).isSome

/-- Python str.find(pat, start): search starting at an offset. -/
def findSubFrom (pat : Text) (t : Text) (start : Nat) : Option Nat :=
  (findSub pat (t.drop start)).map (· + start)

/-- Lower-case a text for case-insensitive comparison. -/
def lowerT (t : Text) : Text := t.map Char.toLower

/-- Case-insensitive prefix test (re.IGNORECASE literal at a position). -/
def isPrefixOfCI (pat t : Text) : Bool :=
  (lowerT pat).isPrefixOf (lowerT t)

/-- First index of a case-insensitive occurrence of pat. -/
def findSubCI (pat : Text) : Text → Option Nat
  | [] => if pat.isEmpty then some 0 else none
  | c :: cs =>
    if isPrefixOfCI pat (c :: cs) then some 0
    else (findSubCI pat cs).map (· + 1)

/-- Case-insensitive substring containment. -/
def containsSubCI (pat t : Text) : Bool :=
  (findSubCI pat t).isSome

/-- A finditer-style scanner: m gives the length of a match starting at the
head of its argument; matches are non-overlapping, leftmost first; a
reported length of 0 is treated as no match (no pattern below is nullable).
Returns (start, length) pairs.  The fuel argument (initially the text
length, an upper bound on the number of scanning steps) makes the
recursion structural so the kernel can evaluate the function. -/
def finditerAux (m : Text → Option Nat) : Nat → Text → Nat → List (Nat × Nat)
  | 0, _, _ => []
  | _, [], _ => []
  | fuel + 1, c :: cs, i =>
    match m (c :: cs) with
    | some (n + 1) => (i, n + 1) :: finditerAux m fuel (cs.drop n) (i + n + 1)
    | _ => finditerAux m fuel cs (i + 1)

def finditer (m : Text → Option Nat) (t : Text) : List (Nat × Nat) :=
  finditerAux m t.length t 0

/-! ### search_utils.py -/

/-- The _BLOCK_TAGS set of search_utils.py. -/
def blockTags : List (List Char) :=
  ["address", "article", "aside", "blockquote", "div", "dl", "dt", "dd",
   "fieldset", "figcaption", "figure", "footer", "form", "h1", "h2", "h3",
   "h4", "h5", "h6", "header", "hr", "li", "main", "nav", "ol", "p", "pre",
   "section", "table", "tbody", "thead", "tr", "ul"].map String.toList

def isTagNameChar (c : Char) : Bool :=
  c.isAlpha || c.isDigit || c = '-' || c = '.' || c = ':' || c = '_'

/-- Effect of _TextExtractor.handle_starttag on (skip depth, emitted parts). -/
def handleStartTag (name : Text) (skipDepth : Nat) : Nat × List Text :=
  if name = "script".toList || name = "style".toList then (skipDepth + 1, [])
  else if skipDepth ≠ 0 then (skipDepth, [])
  else if name = "br".toList || blockTags.contains name then (skipDepth, [['\n']])
  else (skipDepth, [])

/-- Effect of _TextExtractor.handle_endtag on (skip depth, emitted parts). -/
def handleEndTag (name : Text) (skipDepth : Nat) : Nat × List Text :=
  if name = "script".toList || name = "style".toList then (skipDepth - 1, [])
  else if skipDepth ≠ 0 then (skipDepth, [])
  else if blockTags.contains name then (skipDepth, [['\n']])
  else (skipDepth, [])

/-- Model of the html.parser tokenizer loop driving _TextExtractor: markup
sections start at a < (comments, end tags, start tags) and run to the next
>; everything else is character data.  Attribute-value subtleties of the
stdlib parser are not modelled; no claim depends on them. -/
def extractTextAux : Nat → Text → Nat → List Text
  | 0, _, _ => []
  | _, [], _ => []
  | fuel + 1, c :: rest, skipDepth =>
    if c = '<' then
      if "!--".toList.isPrefixOf rest then
        match findSub "-->".toList rest with
        | some i => extractTextAux fuel (rest.drop (i + 3)) skipDepth
        | none => []
      else if rest.head? = some '/' then
        let r2 := rest.tail
        let name := lowerT (r2.takeWhile isTagNameChar)
        let (d2, parts) := handleEndTag name skipDepth
        let inTag := r2.takeWhile (fun d => d ≠ '>')
        parts ++ extractTextAux fuel (r2.drop (inTag.length + 1)) d2
      else
        let name := lowerT (rest.takeWhile isTagNameChar)
        if name.isEmpty then
          -- a lone < that opens no tag is treated as data
          (if skipDepth = 0 then [[c]] else []) ++ extractTextAux fuel rest skipDepth
        else
          let (d2, parts) := handleStartTag name skipDepth
          let inTag := rest.takeWhile (fun d => d ≠ '>')
          parts ++ extractTextAux fuel (rest.drop (inTag.length + 1)) d2
    else
      (if skipDepth = 0 then [[c]] else []) ++ extractTextAux fuel rest skipDepth

/-- Partial model of html.unescape: the five basic named references.  The
fuel argument (initially the text length) makes the recursion structural. -/
def unescapeHtmlAux : Nat → Text → Text
  | 0, _ => []
  | _, [] => []
  | fuel + 1, c :: rest =>
    if c = '&' then
      if "amp;".toList.isPrefixOf rest then '&' :: unescapeHtmlAux fuel (rest.drop 4)
      else if "lt;".toList.isPrefixOf rest then '<' :: unescapeHtmlAux fuel (rest.drop 3)
      else if "gt;".toList.isPrefixOf rest then '>' :: unescapeHtmlAux fuel (rest.drop 3)
      else if "quot;".toList.isPrefixOf rest then '"' :: unescapeHtmlAux fuel (rest.drop 5)
      else if "#39;".toList.isPrefixOf rest then '\'' :: unescapeHtmlAux fuel (rest.drop 4)
      else '&' :: unescapeHtmlAux fuel rest
    else c :: unescapeHtmlAux fuel rest

def unescapeHtml (t : Text) : Text :=
  unescapeHtmlAux t.length t

/-- The maximal whitespace-free runs of a text. -/
def wordsOf (t : Text) : List Text :=
  (t.splitOnP isPySpace).filter (fun w => !w.isEmpty)

/-- re.sub(r"\s+", " ", value).strip(): words joined by single spaces. -/
def normalizeWhitespace (t : Text) : Text :=
  List.intercalate [' '] (wordsOf t)

def htmlToRawText (html : Text) : Text :=
  unescapeHtml (extractTextAux html.length html 0).flatten

def htmlToText (html : Text) : Text :=
  normalizeWhitespace (htmlToRawText html)

/-- Match of the marker comment regex at the head of the text
(the pattern is a literal, digits, and a closing literal). -/
def gmexCommentAt (t : Text) : Option Nat :=
  if "<!--GMEX:".toList.isPrefixOf t then
    let ds := (t.drop 9).takeWhile Char.isDigit
    if ds.isEmpty then none
    else if "-->".toList.isPrefixOf (t.drop (9 + ds.length)) then
      some (9 + ds.length + 3)
    else none
  else none

/-- split_html_by_markers: chunks run from one match end to the next
match start (the final chunk runs to the end of the html). -/
def chunksAfterMatches (html : Text) : List (Nat × Nat) → List Text
  | [] => []
  | (s, l) :: rest =>
    let st := s + l
    let en := match rest with
      | (s2, _) :: _ => s2
      | [] => html.length
    ((html.drop st).take (en - st)) :: chunksAfterMatches html rest

def splitHtmlByMarkers (html : Text) : List Text :=
  chunksAfterMatches html (finditer gmexCommentAt html)

/-- Word characters for the regex \b boundary. -/
def isWordChar (c : Char) : Bool :=
  c.isAlpha || c.isDigit || c = '_'

/-- Match of the heading regex (an opening angle bracket, the tag name, a
word boundary, non-closing characters, a closing angle bracket) at the
head of the text, case-insensitively. -/
def headingTagAt (tag : Text) (t : Text) : Option Nat :=
  if isPrefixOfCI ('<' :: tag) t then
    let rest := t.drop (1 + tag.length)
    if (rest.head?.map isWordChar).getD false then none
    else
      let inTag := rest.takeWhile (fun d => d ≠ '>')
      if inTag.length < rest.length then some (1 + tag.length + inTag.length + 1)
      else none
  else none

/-- Match of the footnote-section regex at the head of the text: a section
tag whose attribute span mentions a class containing "footnotes". -/
def footnoteSectionAt (t : Text) : Option Nat :=
  if isPrefixOfCI "<section".toList t then
    let rest := t.drop 8
    if (rest.head?.map isWordChar).getD false then none
    else
      let inTag := rest.takeWhile (fun d => d ≠ '>')
      if inTag.length < rest.length then
        match findSubCI "class=".toList inTag with
        | some i =>
          if containsSubCI "footnotes".toList (inTag.drop (i + 6)) then
            some (8 + inTag.length + 1)
          else none
        | none => none
      else none
  else none

/-- re.search with an at-position matcher: index of the first match. -/
def searchAt (m : Text → Option Nat) : Text → Option Nat
  | [] => match m [] with
          | some _ => some 0
          | none => none
  | c :: cs =>
    match m (c :: cs) with
    | some _ => some 0
    | none => (searchAt m cs).map (· + 1)

/-- split_html_by_heading: chunks run from one heading-match start to the
next (each chunk truncated before a footnote section). -/
def chunksFromMatches (html : Text) : List (Nat × Nat) → List Text
  | [] => []
  | (s, _) :: rest =>
    let en := match rest with
      | (s2, _) :: _ => s2
      | [] => html.length
    let chunk := (html.drop s).take (en - s)
    let chunk2 := match searchAt footnoteSectionAt chunk with
      | some i => chunk.take i
      | none => chunk
    chunk2 :: chunksFromMatches html rest

def splitHtmlByHeading (html : Text) (tag : Text) : List Text :=
  chunksFromMatches html (finditer (headingTagAt tag) html)

def splitHtmlByH2 (html : Text) : List Text :=
  splitHtmlByHeading html "h2".toList

/-- Match of the exercise-boundary alternation of split_tex_by_exercise at
the head of the text (alternatives tried in the source order). -/
def texExerciseAt (t : Text) : Option Nat :=
  match t with
  | '\\' :: rest =>
    if isPrefixOfCI "exercise".toList rest then some 9
    else if isPrefixOfCI "uebung".toList rest then some 7
    else if isPrefixOfCI "subsection".toList rest then
      if (rest.drop 10).head? = some '*' then some 12 else some 11
    else if isPrefixOfCI ("begin".toList ++ [lbrace] ++ "problem".toList ++ [rbrace]) rest then
      some 15
    else if isPrefixOfCI ("begin".toList ++ [lbrace] ++ "exercise".toList ++ [rbrace]) rest then
      some 16
    else none
  | _ => none

/-- split_tex_by_exercise chunks, from one match start to the next. -/
def chunksFromMatchesPlain (text : Text) : List (Nat × Nat) → List Text
  | [] => []
  | (s, _) :: rest =>
    let en := match rest with
      | (s2, _) :: _ => s2
      | [] => text.length
    ((text.drop s).take (en - s)) :: chunksFromMatchesPlain text rest

def splitTexByExercise (text : Text) : List Text :=
  chunksFromMatchesPlain text (finditer texExerciseAt text)

/-- _fit_chunks_to_count of search_utils.py. -/
def fitChunksToCount (chunks : List Text) (expectedCount : Int) : List Text :=
  if expectedCount ≤ 0 then chunks
  else if chunks.isEmpty then List.replicate expectedCount.toNat []
  else if (chunks.length : Int) = expectedCount then chunks
  else if (chunks.length : Int) > expectedCount then
    chunks.take (expectedCount.toNat - 1) ++
      [List.intercalate [' '] (chunks.drop (expectedCount.toNat - 1))]
  else chunks ++ List.replicate (expectedCount - chunks.length).toNat []

/-- Python min(candidates, key=...): the first element of least key. -/
def minByKey (key : List Text → Nat) (c0 : List Text) (rest : List (List Text)) : List Text :=
  rest.foldl (fun best c => if key c < key best then c else best) c0

/-- The candidate segmentations assembled by extract_exercise_search_texts. -/
def extractCandidates (html : Text) : List (List Text) :=
  let markerCand :=
    let mc := splitHtmlByMarkers html
    if mc.isEmpty then [] else [mc.map htmlToText]
  let headingCands :=
    (["h2", "h3", "h1", "h4"].map fun tag => splitHtmlByHeading html tag.toList).filterMap
      fun chunks => if chunks.isEmpty then none else some (chunks.map htmlToText)
  let rawText := htmlToRawText html
  let texCand :=
    let tc := splitTexByExercise rawText
    if !tc.isEmpty then [tc.map normalizeWhitespace]
    else
      let text := normalizeWhitespace rawText
      if !text.isEmpty then [[text]] else []
  markerCand ++ headingCands ++ texCand

/-- extract_exercise_search_texts of search_utils.py. -/
def extractExerciseSearchTexts (html : Text) (expectedCount : Option Int) : List Text :=
  match extractCandidates html with
  | [] =>
    match expectedCount with
    | none => []
    | some n => List.replicate n.toNat []
  | c0 :: rest =>
    match expectedCount with
    | none => c0
    | some n =>
      match (c0 :: rest).find? (fun c => (c.length : Int) == n) with
      | some c => c
      | none =>
        fitChunksToCount
          (minByKey (fun c => ((c.length : Int) - n).natAbs) c0 rest) n

/-! ### Claim C1 -/

theorem length_fitChunksToCount (chunks : List Text) (n : Int) (hn : 1  ≤ n) :
    ((fitChunksToCount chunks n).length : Int) = n := by
  unfold fitChunksToCount
  split_ifs with h0 h1 h2 h3
  · omega
  · simp [List.length_replicate]
    omega
  · exact h2
  · have hlen : (chunks.length : Int) > n := h3
    simp only [List.length_append, List.length_take, List.length_cons,
      List.length_nil]
    have : min (n.toNat - 1) chunks.length = n.toNat - 1 := by omega
    rw [this]
    omega
  · have hne : ¬ chunks.isEmpty = true := h1
    have hlt : (chunks.length : Int) < n := by omega
    simp only [List.length_append, List.length_replicate]
    omega

/-- C1 (amended): for every expected count N at least 1 and every HTML
input, the extractor returns exactly N strings.  (As stated the claim also
demanded the empty list whenever N = 0; the code instead returns the best
unfitted candidate in that case, see the counterexample.) -/
theorem C1_extract_returns_expected_count (html : Text) (n : Int) (hn : 1 ≤ n) :
    ((extractExerciseSearchTexts html (some n)).length : Int) = n := by
  unfold extractExerciseSearchTexts
  cases h : extractCandidates html with
  | nil =>
    simp [List.length_replicate]
    omega
  | cons c0 rest =>
    cases hf : (c0 :: rest).find? (fun c => (c.length : Int) == n) with
    | some c =>
      have hc := List.find?_some hf
      rw [beq_iff_eq] at hc
      simp only [hf]
      exact hc
    | none =>
      simp only [hf]
      exact length_fitChunksToCount
        (minByKey (fun c => ((c.length : Int) - n).natAbs) c0 rest) n hn

theorem C1_extract_returns_expected_count_witness :
    (1 : Int) ≤ 3 ∧
      ((extractExerciseSearchTexts ("x".toList) (some 3)).length : Int) = 3 :=
  ⟨by decide, C1_extract_returns_expected_count ("x".toList) 3 (by decide)⟩

/-- C1 counterexample: with N = 0 and the one-character HTML input "x" the
extractor returns the single whole-document block, not the empty list the
claim demands (the fit step leaves candidates unchanged when N = 0). -/
theorem C1_zero_count_counterexample :
    extractExerciseSearchTexts ("x".toList) (some 0) = [['x']] := by
  decide

/-! ### render_series_html.py: markers, injection, fallback -/

def MARKER_TOKEN : Text := "GMEXMARKER-".toList

/-- The dedicated marker line inserted before a matching line. -/
def markerLine (i : Nat) : Text :=
  MARKER_TOKEN ++ (Nat.repr i).toList ++ ['\n']

/-- Length of a MARKER_RE match (the token literal plus at least one
digit, greedily) at the head of the text. -/
def markerMatchLen (t : Text) : Option Nat :=
  if MARKER_TOKEN.isPrefixOf t then
    let ds := (t.drop MARKER_TOKEN.length).takeWhile Char.isDigit
    if ds.isEmpty then none else some (MARKER_TOKEN.length + ds.length)
  else none

/-- _strip_marker_tokens: one left-to-right pass removing non-overlapping
MARKER_RE matches (re.sub semantics).  Fuel makes the recursion
structural. -/
def stripMarkersAux : Nat → Text → Text
  | 0, _ => []
  | _, [] => []
  | fuel + 1, c :: cs =>
    match markerMatchLen (c :: cs) with
    | some len => stripMarkersAux fuel ((c :: cs).drop len)
    | none => c :: stripMarkersAux fuel cs

def stripMarkers (t : Text) : Text :=
  stripMarkersAux t.length t

/-- Python str.replace for a single-character needle. -/
def replaceAllChar (c : Char) (rep : Text) (t : Text) : Text :=
  t.flatMap fun d => if d = c then rep else [d]

/-- The chained .replace of ampersand, less-than, greater-than used for
the fallback HTML. -/
def escapeHtml (t : Text) : Text :=
  replaceAllChar '>' "&gt;".toList
    (replaceAllChar '<' "&lt;".toList
      (replaceAllChar '&' "&amp;".toList t))

/-- The permanent fallback stored when the renderer fails: escaped,
marker-stripped TeX wrapped in a single preformatted block. -/
def fallbackHtml (rawTex : Text) : Text :=
  "<pre>".toList ++ escapeHtml (stripMarkers rawTex) ++ "</pre>".toList

/-- First percent character not preceded by a backslash (the comment
regex used by _line_has_uncommented_match). -/
def findUnescapedPercentAux : Option Char → Text → Nat → Option Nat
  | _, [], _ => none
  | prev, c :: cs, i =>
    if c = '%' ∧ prev ≠ some '\\' then some i
    else findUnescapedPercentAux (some c) cs (i + 1)

def findUnescapedPercent (line : Text) : Option Nat :=
  findUnescapedPercentAux none line 0

/-- First index at which an at-position predicate fires (re.search for
the line-level patterns below). -/
def searchPos (m : Text → Bool) : Text → Option Nat
  | [] => if m [] then some 0 else none
  | c :: cs => if m (c :: cs) then some 0 else (searchPos m cs).map (· + 1)

/-- _line_has_uncommented_match of render_series_html.py. -/
def lineHasUncommentedMatch (p : Text → Option Nat) (line : Text) : Bool :=
  match p line with
  | none => false
  | some s =>
    if (match findUnescapedPercent line with
        | some cpos => decide (s > cpos)
        | none => false) then false
    else
      let pre := line.take s
      if containsSub "\\newcommand".toList pre
          || containsSub "\\renewcommand".toList pre
          || containsSub "\\providecommand".toList pre then false
      else true

/-- _count_pattern_matches: matching lines of text.splitlines(). -/
def countPatternMatches (text : Text) (p : Text → Option Nat) : Nat :=
  (splitlines text).countP fun l => lineHasUncommentedMatch p l

/-- _inject_markers_for_pattern's loop over text.splitlines(keepends=True):
a marker line is emitted directly before each matching line while the
running index is below the requested count. -/
def injectMarkersAux (p : Text → Option Nat) (count : Nat) :
    List Text → Nat → List Text × Nat
  | [], idx => ([], idx)
  | l :: ls, idx =>
    if idx < count ∧ lineHasUncommentedMatch p l = true then
      let r := injectMarkersAux p count ls (idx + 1)
      (markerLine (idx + 1) :: l :: r.1, r.2)
    else
      let r := injectMarkersAux p count ls idx
      (l :: r.1, r.2)

def injectMarkersForPattern (text : Text) (p : Text → Option Nat) (count : Nat) :
    Text × Nat :=
  let r := injectMarkersAux p count (splitlinesKeep text) 0
  (r.1.flatten, r.2)

def beginDocTok : Text := "\\begin".toList ++ [lbrace] ++ "document".toList ++ [rbrace]

def endDocTok : Text := "\\end".toList ++ [lbrace] ++ "document".toList ++ [rbrace]

/-- Body isolation of _inject_exercise_markers: the span between the
document-environment begin and end tokens, when both are present. -/
def docParts (tex : Text) : Text × Text × Text :=
  match findSub beginDocTok tex with
  | none => ([], tex, [])
  | some b =>
    let be := b + beginDocTok.length
    match findSubFrom endDocTok tex be with
    | none => ([], tex, [])
    | some e => (tex.take be, (tex.drop be).take (e - be), tex.drop e)

/-- At-position matchers for the ordered pattern list of
_inject_exercise_markers (case-insensitive, as in the source). -/
def atBeginProblem (t : Text) : Bool :=
  isPrefixOfCI ("\\begin".toList ++ [lbrace] ++ "problem".toList ++ [rbrace]) t

def atBeginExercise (t : Text) : Bool :=
  isPrefixOfCI ("\\begin".toList ++ [lbrace] ++ "exercise".toList ++ [rbrace]) t

/-- A command name, optional whitespace, then an opening brace. -/
def atCmdOpenBrace (cmd : Text) (t : Text) : Bool :=
  isPrefixOfCI cmd t && ((t.drop cmd.length).dropWhile isPySpace).head? = some lbrace

/-- The subsection macro with an optional star, whitespace, then a brace. -/
def atSubsectionBrace (t : Text) : Bool :=
  isPrefixOfCI "\\subsection".toList t &&
    (let r := t.drop 11
     let r2 := if r.head? = some '*' then r.tail else r
     (r2.dropWhile isPySpace).head? = some lbrace)

/-- An opening brace, a command, then a word boundary. -/
def atBraceCmd (cmd : Text) (t : Text) : Bool :=
  isPrefixOfCI (lbrace :: cmd) t &&
    !((t.drop (1 + cmd.length)).head?.map isWordChar).getD false

def exercisePatterns : List (Text → Option Nat) :=
  [searchPos atBeginProblem,
   searchPos atBeginExercise,
   searchPos (atCmdOpenBrace "\\exercise".toList),
   searchPos (atCmdOpenBrace "\\uebung".toList),
   searchPos atSubsectionBrace,
   searchPos (atBraceCmd "\\utit".toList),
   searchPos (atBraceCmd "\\uutit".toList)]

/-- The pattern loop of _inject_exercise_markers: the first pattern whose
match count equals the expected count wins. -/
def injectLoop (tex pre body suf : Text) (n : Nat) :
    List (Text → Option Nat) → Text × Nat
  | [] => (tex, 0)
  | p :: ps =>
    if countPatternMatches body p = n then
      let r := injectMarkersForPattern body p n
      (pre ++ r.1 ++ suf, r.2)
    else injectLoop tex pre body suf n ps

/-- _inject_exercise_markers of render_series_html.py. -/
def injectExerciseMarkers (tex : Text) (n : Nat) : Text × Nat :=
  if n = 0 then (tex, 0)
  else
    let parts := docParts tex
    injectLoop tex parts.1 parts.2.1 parts.2.2 n exercisePatterns

/-! ### render_series_html.py: solution environments, render step -/

/-- re.sub with a case-insensitive literal pattern: leftmost
non-overlapping occurrences replaced.  Fuel makes recursion structural. -/
def replaceAllSubCIAux (pat rep : Text) : Nat → Text → Text
  | 0, _ => []
  | _, [] => []
  | fuel + 1, c :: cs =>
    if isPrefixOfCI pat (c :: cs) then
      rep ++ replaceAllSubCIAux pat rep fuel ((c :: cs).drop pat.length)
    else c :: replaceAllSubCIAux pat rep fuel cs

def replaceAllSubCI (pat rep t : Text) : Text :=
  replaceAllSubCIAux pat rep t.length t

/-- Removal of non-greedy begin-to-end environment spans (re.sub of
begin, a lazy any-character run, end, with the empty replacement). -/
def removeEnvSpansCIAux (b e : Text) : Nat → Text → Text
  | 0, _ => []
  | _, [] => []
  | fuel + 1, c :: cs =>
    if isPrefixOfCI b (c :: cs) then
      match findSubCI e ((c :: cs).drop b.length) with
      | some j =>
        removeEnvSpansCIAux b e fuel ((((c :: cs).drop b.length)).drop (j + e.length))
      | none => c :: removeEnvSpansCIAux b e fuel cs
    else c :: removeEnvSpansCIAux b e fuel cs

def removeEnvSpansCI (b e t : Text) : Text :=
  removeEnvSpansCIAux b e t.length t

def envBeginTok (env : Text) : Text :=
  "\\begin".toList ++ [lbrace] ++ env ++ [rbrace]

def envEndTok (env : Text) : Text :=
  "\\end".toList ++ [lbrace] ++ env ++ [rbrace]

def solBeginRepl : Text :=
  "\\begin".toList ++ [lbrace] ++ "quote".toList ++ [rbrace] ++
    "\\textbf".toList ++ [lbrace] ++ "Solution. ".toList ++ [rbrace]

def solEndRepl : Text :=
  "\\end".toList ++ [lbrace] ++ "quote".toList ++ [rbrace]

/-- One environment step of _wrap_solution_environments. -/
def wrapSolutionEnv (showSol : Bool) (t : Text) (env : Text) : Text :=
  if showSol then
    replaceAllSubCI (envEndTok env) solEndRepl
      (replaceAllSubCI (envBeginTok env) solBeginRepl t)
  else removeEnvSpansCI (envBeginTok env) (envEndTok env) t

/-- _wrap_solution_environments of render_series_html.py. -/
def wrapSolutionEnvironments (showSol : Bool) (tex : Text) : Text :=
  wrapSolutionEnv showSol (wrapSolutionEnv showSol tex "solution".toList) "loesung".toList

/-- The comment remainder of a line: the text from the first unescaped
percent to the end of the line (none when the line has no comment). -/
def commentRemainder (line : Text) : Option Text :=
  (findUnescapedPercent line).map fun i => line.drop i

/-! ### render_series model (Command.render_series) -/

inductive RenderStatus
  | notRendered
  | ok
  | failed
deriving DecidableEq, Repr

def RENDER_PIPELINE_ID : Text := "latexml-html5-fragment-v6".toList

/-- Model of the cache checksum sha256(pipeline id + newline + inlined
TeX): the hash is modelled by the tagged text itself; every theorem uses
only its determinism, never injectivity beyond that of the real digest. -/
def renderChecksum (fullTex : Text) : Text :=
  RENDER_PIPELINE_ID ++ '\n' :: fullTex

/-- The Series fields touched by render_series (timestamps and the render
log are not modelled; no claim depends on them). -/
structure SeriesRec where
  texChecksum : Text
  renderStatus : RenderStatus
  htmlContent : Text
deriving DecidableEq, Repr

/-- Outcome of one renderer subprocess invocation. -/
structure RendererRun where
  rc : Int
  htmlOut : Text
deriving DecidableEq, Repr

inductive RenderOutcome
  | skippedUpToDate
  | renderedOk
  | failedFallback
deriving DecidableEq, Repr

/-- Marker-to-comment rewrite stored on success.  Only the bare-token pass
of _replace_markers_with_comments is modelled (the paragraph-unwrapping
first pass affects no claim). -/
def replaceMarkersAux : Nat → Text → Text
  | 0, _ => []
  | _, [] => []
  | fuel + 1, c :: cs =>
    match markerMatchLen (c :: cs) with
    | some len =>
      "<!--GMEX:".toList ++ ((c :: cs).drop MARKER_TOKEN.length).takeWhile Char.isDigit ++
        "-->".toList ++ replaceMarkersAux fuel ((c :: cs).drop len)
    | none => c :: replaceMarkersAux fuel cs

def replaceMarkersWithComments (t : Text) : Text :=
  replaceMarkersAux t.length t

/-- Command.render_series, as a pure step: given the stored Series state,
the force flag, the freshly inlined TeX, the (pure) normalization pipeline
and the renderer invocation result, produce the new stored state and the
reported outcome.  The skip test, the failure fallback and the success
path mirror the source; search-text updates are modelled separately. -/
def renderSeries (s : SeriesRec) (force : Bool) (fullTex : Text)
    (normalize : Text → Text) (run : RendererRun) : SeriesRec × RenderOutcome :=
  let checksum := renderChecksum fullTex
  if force = false ∧ s.texChecksum = checksum ∧ s.renderStatus = RenderStatus.ok then
    (s, RenderOutcome.skippedUpToDate)
  else
    let rawTex := normalize fullTex
    if run.rc ≠ 0 ∨ (stripWs run.htmlOut).isEmpty = true then
      ({ texChecksum := checksum, renderStatus := RenderStatus.failed,
         htmlContent := fallbackHtml rawTex }, RenderOutcome.failedFallback)
    else
      ({ texChecksum := checksum, renderStatus := RenderStatus.ok,
         htmlContent := replaceMarkersWithComments run.htmlOut }, RenderOutcome.renderedOk)

/-! ### Claim C2 -/

theorem renderSeries_skip_iff (s : SeriesRec) (force : Bool) (fullTex : Text)
    (normalize : Text → Text) (run : RendererRun) :
    (renderSeries s force fullTex normalize run).2 = RenderOutcome.skippedUpToDate ↔
      (force = false ∧ s.texChecksum = renderChecksum fullTex ∧
        s.renderStatus = RenderStatus.ok) := by
  unfold renderSeries
  by_cases h : force = false ∧ s.texChecksum = renderChecksum fullTex ∧
      s.renderStatus = RenderStatus.ok
  · rw [if_pos h]
    simpa using h
  · rw [if_neg h]
    by_cases h2 : run.rc ≠ 0 ∨ (stripWs run.htmlOut).isEmpty = true
    · rw [if_pos h2]
      constructor
      · intro hx
        simp at hx
      · intro hc
        exact absurd hc h
    · rw [if_neg h2]
      constructor
      · intro hx
        simp at hx
      · intro hc
        exact absurd hc h

theorem renderSeries_rendered_state (s : SeriesRec) (force : Bool) (fullTex : Text)
    (normalize : Text → Text) (run : RendererRun)
    (h : (renderSeries s force fullTex normalize run).2 = RenderOutcome.renderedOk) :
    (renderSeries s force fullTex normalize run).1 =
      { texChecksum := renderChecksum fullTex, renderStatus := RenderStatus.ok,
        htmlContent := replaceMarkersWithComments run.htmlOut } := by
  unfold renderSeries at h ⊢
  by_cases h1 : force = false ∧ s.texChecksum = renderChecksum fullTex ∧
      s.renderStatus = RenderStatus.ok
  · rw [if_pos h1] at h
    simp at h
  · rw [if_neg h1] at h ⊢
    by_cases h2 : run.rc ≠ 0 ∨ (stripWs run.htmlOut).isEmpty = true
    · rw [if_pos h2] at h
      simp at h
    · rw [if_neg h2]

/-- C2 (amended): with force off, a render invocation is skipped if and
only if the stored checksum equals the fresh one AND the stored render
status is ok (checksum equality alone is necessary but not sufficient);
consequently a successful render followed by a second invocation on the
same TeX without force always skips. -/
theorem C2_skip_characterization (s : SeriesRec) (force : Bool) (fullTex : Text)
    (normalize normalize2 : Text → Text) (run1 run2 : RendererRun) :
    ((renderSeries s false fullTex normalize run1).2 = RenderOutcome.skippedUpToDate ↔
      s.texChecksum = renderChecksum fullTex ∧ s.renderStatus = RenderStatus.ok)
    ∧ ((renderSeries s force fullTex normalize run1).2 = RenderOutcome.renderedOk →
      (renderSeries (renderSeries s force fullTex normalize run1).1 false fullTex
          normalize2 run2).2 = RenderOutcome.skippedUpToDate) := by
  constructor
  · rw [renderSeries_skip_iff]
    constructor
    · intro hc
      exact ⟨hc.2.1, hc.2.2⟩
    · intro hc
      exact ⟨rfl, hc.1, hc.2⟩
  · intro h1
    rw [renderSeries_skip_iff, renderSeries_rendered_state s force fullTex normalize run1 h1]
    exact ⟨rfl, rfl, rfl⟩

/-- Witness for C2: a concrete fresh series rendered successfully once is
skipped on the second invocation. -/
theorem C2_skip_characterization_witness :
    (renderSeries ⟨[], RenderStatus.notRendered, []⟩ false ("hello".toList) id
        ⟨0, "ok".toList⟩).2 = RenderOutcome.renderedOk ∧
      (renderSeries
          (renderSeries ⟨[], RenderStatus.notRendered, []⟩ false ("hello".toList) id
            ⟨0, "ok".toList⟩).1 false ("hello".toList) id ⟨0, "ok".toList⟩).2 =
        RenderOutcome.skippedUpToDate :=
  ⟨by decide,
    (C2_skip_characterization ⟨[], RenderStatus.notRendered, []⟩ false ("hello".toList)
      id id ⟨0, "ok".toList⟩ ⟨0, "ok".toList⟩).2 (by decide)⟩

/-! ### Occurrence toolkit -/

/-- No occurrence of pat as a contiguous substring of t. -/
def NoOcc (pat t : Text) : Prop :=
  ∀ i, ¬ pat <+: t.drop i

/-- Occurrence scanner matching NoOcc (used to decide concrete cases). -/
def hasOccB (pat : Text) : Text → Bool
  | [] => pat.isPrefixOf []
  | c :: cs => pat.isPrefixOf (c :: cs) || hasOccB pat cs

theorem noOcc_nil (pat : Text) (h : pat ≠ []) : NoOcc pat [] := by
  intro i hpre
  rw [List.drop_nil] at hpre
  exact h (List.prefix_nil.mp hpre)

theorem noOcc_cons_iff (pat : Text) (c : Char) (t : Text) :
    NoOcc pat (c :: t) ↔ ¬ pat <+: (c :: t) ∧ NoOcc pat t := by
  constructor
  · intro h
    refine ⟨h 0, fun i => ?_⟩
    have := h (i + 1)
    simpa using this
  · rintro ⟨h0, h⟩ i
    cases i with
    | zero => simpa using h0
    | succ j => simpa using h j

theorem noOcc_of_hasOccB_eq_false (pat : Text) :
    ∀ t, hasOccB pat t = false → NoOcc pat t := by
  intro t
  induction t with
  | nil =>
    intro h i hpre
    rw [List.drop_nil] at hpre
    have : pat = [] := List.prefix_nil.mp hpre
    subst this
    simp [hasOccB, List.isPrefixOf] at h
  | cons c cs ih =>
    intro h
    rw [hasOccB, Bool.or_eq_false_iff] at h
    rw [noOcc_cons_iff]
    refine ⟨fun hpre => ?_, ih h.2⟩
    rw [← List.isPrefixOf_iff_prefix] at hpre
    rw [hpre] at h
    exact Bool.false_ne_true h.1.symm

theorem noOcc_append_of_disjoint_left (pat u v : Text)
    (hne : pat ≠ []) (hdisj : ∀ e ∈ u, e ∉ pat) (hv : NoOcc pat v) :
    NoOcc pat (u ++ v) := by
  intro i hpre
  by_cases hi : u.length ≤ i
  · obtain ⟨k, hk⟩ : ∃ k, i = u.length + k := ⟨i - u.length, by omega⟩
    subst hk
    rw [List.drop_append] at hpre
    exact hv k hpre
  · push_neg at hi
    rw [List.drop_append_of_le_length (by omega)] at hpre
    cases hp : pat with
    | nil => exact hne hp
    | cons p0 pr =>
      rw [hp] at hpre
      cases hdrop : u.drop i with
      | nil =>
        have := List.length_drop i u
        rw [hdrop] at this
        simp at this
        omega
      | cons a l =>
        rw [hdrop] at hpre
        rcases hpre with ⟨z, hz⟩
        have ha : a = p0 := by
          have := congrArg List.head? hz
          simpa using this.symm
        have hmem : p0 ∈ u := by
          have : p0 ∈ u.drop i := by
            rw [hdrop, ha.symm]
            exact List.mem_cons_self a l
          exact List.mem_of_mem_drop this
        exact hdisj p0 hmem (hp ▸ List.mem_cons_self p0 pr)

theorem prefix_of_prefix_append (pat u v : Text)
    (h : pat <+: u ++ v) (hl : pat.length ≤ u.length) : pat <+: u := by
  have h1 : pat = (u ++ v).take pat.length := List.prefix_iff_eq_take.mp h
  rw [List.take_append_of_le_length hl] at h1
  rw [h1]
  exact List.take_prefix _ _

theorem noOcc_append_of_disjoint_right (pat u v : Text)
    (hne : pat ≠ []) (hu : NoOcc pat u) (hdisj : ∀ e ∈ v, e ∉ pat) :
    NoOcc pat (u ++ v) := by
  intro i hpre
  by_cases hi : u.length ≤ i
  · obtain ⟨k, hk⟩ : ∃ k, i = u.length + k := ⟨i - u.length, by omega⟩
    subst hk
    rw [List.drop_append] at hpre
    cases hp : pat with
    | nil => exact hne hp
    | cons p0 pr =>
      rw [hp] at hpre
      cases hdrop : v.drop k with
      | nil =>
        rw [hdrop] at hpre
        simp at hpre
      | cons a l =>
        rw [hdrop] at hpre
        rcases hpre with ⟨z, hz⟩
        have ha : a = p0 := by
          have := congrArg List.head? hz
          simpa using this.symm
        have hmem : p0 ∈ v := by
          have : p0 ∈ v.drop k := by
            rw [hdrop, ha.symm]
            exact List.mem_cons_self a l
          exact List.mem_of_mem_drop this
        exact hdisj p0 hmem (hp ▸ List.mem_cons_self p0 pr)
  · push_neg at hi
    rw [List.drop_append_of_le_length (by omega)] at hpre
    by_cases hfit : pat.length ≤ u.length - i
    · have : pat <+: u.drop i := by
        refine prefix_of_prefix_append pat (u.drop i) v hpre ?_
        rw [List.length_drop]
        exact hfit
      exact hu i this
    · push_neg at hfit
      cases hv : v with
      | nil =>
        rw [hv, List.append_nil] at hpre
        have := hpre.length_le
        rw [List.length_drop] at this
        omega
      | cons v0 vr =>
        subst hv
        have hm : u.length - i < pat.length := hfit
        have hlt2 : u.length - i < (u.drop i ++ v0 :: vr).length := by
          rw [List.length_append, List.length_drop]
          simp only [List.length_cons]
          omega
        have hgetp := hpre.getElem hm
        have hmemp : pat[u.length - i] ∈ pat := List.getElem_mem hm
        rw [hgetp] at hmemp
        have hdl : (u.drop i).length ≤ u.length - i := by
          rw [List.length_drop]
        rw [List.getElem_append_right hdl] at hmemp
        simp only [List.length_drop, Nat.sub_self, List.getElem_cons_zero] at hmemp
        exact hdisj v0 (List.mem_cons_self v0 vr) hmemp

/-! ### Marker stripping: rewrite equations -/

theorem markerMatchLen_bounds {t : Text} {len : Nat}
    (h : markerMatchLen t = some len) : 1 ≤ len ∧ len ≤ t.length := by
  simp only [markerMatchLen] at h
  split_ifs at h with h1 h2
  have hlen : MARKER_TOKEN.length ≤ t.length :=
    (List.isPrefixOf_iff_prefix.mp h1).length_le
  have hds : ((t.drop MARKER_TOKEN.length).takeWhile Char.isDigit).length ≤
      (t.drop MARKER_TOKEN.length).length :=
    List.Sublist.length_le (List.takeWhile_sublist _)
  rw [List.length_drop] at hds
  have hL : MARKER_TOKEN.length +
      ((t.drop MARKER_TOKEN.length).takeWhile Char.isDigit).length = len :=
    Option.some.inj h
  have htok : MARKER_TOKEN.length = 11 := by decide
  omega

theorem stripMarkersAux_congr :
    ∀ fuel fuel' t, t.length ≤ fuel → t.length ≤ fuel' →
      stripMarkersAux fuel t = stripMarkersAux fuel' t := by
  intro fuel
  induction fuel with
  | zero =>
    intro fuel' t h _
    have ht : t = [] := by
      cases t with
      | nil => rfl
      | cons c cs => simp at h
    subst ht
    cases fuel' <;> rfl
  | succ f ih =>
    intro fuel' t h h'
    cases t with
    | nil => cases fuel' <;> rfl
    | cons c cs =>
      cases fuel' with
      | zero => simp at h'
      | succ f2 =>
        simp only [stripMarkersAux]
        cases hm : markerMatchLen (c :: cs) with
        | some len =>
          have hb := markerMatchLen_bounds hm
          simp only [List.length_cons] at h h'
          have hd : ((c :: cs).drop len).length ≤ f := by
            rw [List.length_drop]
            simp only [List.length_cons]
            omega
          have hd2 : ((c :: cs).drop len).length ≤ f2 := by
            rw [List.length_drop]
            simp only [List.length_cons]
            omega
          exact ih f2 _ hd hd2
        | none =>
          simp only [List.length_cons] at h h'
          have := ih f2 cs (by omega) (by omega)
          rw [this]

theorem stripMarkers_cons_match {c : Char} {cs : Text} {len : Nat}
    (h : markerMatchLen (c :: cs) = some len) :
    stripMarkers (c :: cs) = stripMarkers ((c :: cs).drop len) := by
  have hb := markerMatchLen_bounds h
  unfold stripMarkers
  simp only [List.length_cons, stripMarkersAux, h]
  apply stripMarkersAux_congr
  · rw [List.length_drop]
    simp only [List.length_cons] at hb ⊢
    omega
  · exact le_refl _

theorem stripMarkers_cons_nomatch {c : Char} {cs : Text}
    (h : markerMatchLen (c :: cs) = none) :
    stripMarkers (c :: cs) = c :: stripMarkers cs := by
  unfold stripMarkers
  simp only [List.length_cons, stripMarkersAux, h]

/-! ### Clean marker placement -/

/-- Every occurrence of the marker token prefix is a complete injected
marker: followed by at least one digit and a newline.  This is exactly
the shape produced by marker injection on a source free of the token
prefix. -/
def CleanMarkers (t : Text) : Prop :=
  ∀ i, MARKER_TOKEN <+: t.drop i →
    ∃ ds, ds ≠ [] ∧ (∀ d ∈ ds, d.isDigit = true) ∧
      (ds ++ ['\n']) <+: t.drop (i + MARKER_TOKEN.length)

/-- Executable check for CleanMarkers. -/
def cleanMarkersB : Text → Bool
  | [] => true
  | c :: cs =>
    (if MARKER_TOKEN.isPrefixOf (c :: cs) then
      (let r := (c :: cs).drop MARKER_TOKEN.length
       let ds := r.takeWhile Char.isDigit
       !ds.isEmpty && ((r.drop ds.length).head? = some '\n'))
     else true) && cleanMarkersB cs

theorem cleanMarkers_drop {t : Text} (k : Nat) (h : CleanMarkers t) :
    CleanMarkers (t.drop k) := by
  intro i hp
  rw [List.drop_drop] at hp
  have e1 : k + i = i + k := by omega
  rw [e1] at hp
  obtain ⟨ds, h1, h2, h3⟩ := h (i + k) hp
  refine ⟨ds, h1, h2, ?_⟩
  rw [List.drop_drop]
  have e2 : k + (i + MARKER_TOKEN.length) = i + k + MARKER_TOKEN.length := by omega
  rw [e2]
  exact h3

theorem takeWhile_append_all {p : Char → Bool} :
    ∀ {a b : Text}, (∀ x ∈ a, p x = true) →
      (a ++ b).takeWhile p = a ++ b.takeWhile p := by
  intro a
  induction a with
  | nil => intro b _; simp
  | cons x xs ih =>
    intro b h
    have hx : p x = true := h x (List.mem_cons_self x xs)
    simp only [List.cons_append, List.takeWhile_cons, hx, if_true]
    rw [ih fun y hy => h y (List.mem_cons_of_mem x hy)]

theorem markerMatch_of_clean {t : Text} (hc : CleanMarkers t)
    (hp : MARKER_TOKEN <+: t) :
    ∃ ds z, ds ≠ [] ∧ (∀ d ∈ ds, d.isDigit = true) ∧
      t = MARKER_TOKEN ++ ds ++ '\n' :: z ∧
      markerMatchLen t = some (MARKER_TOKEN.length + ds.length) := by
  obtain ⟨ds, hne, hdig, hpre⟩ := hc 0 (by simpa using hp)
  rw [Nat.zero_add] at hpre
  obtain ⟨z, hz⟩ := hpre
  have ht : t = MARKER_TOKEN ++ t.drop MARKER_TOKEN.length := by
    have h1 : MARKER_TOKEN = t.take MARKER_TOKEN.length :=
      List.prefix_iff_eq_take.mp hp
    conv_lhs => rw [← List.take_append_drop MARKER_TOKEN.length t]
    rw [← h1]
  have hdropEq : t.drop MARKER_TOKEN.length = ds ++ '\n' :: z := by
    rw [← hz]
    simp
  refine ⟨ds, z, hne, hdig, ?_, ?_⟩
  · conv_lhs => rw [ht, hdropEq]
    simp
  · have hpre2 : MARKER_TOKEN.isPrefixOf t = true := List.isPrefixOf_iff_prefix.mpr hp
    simp only [markerMatchLen, hpre2, if_true, hdropEq]
    have htw : (ds ++ '\n' :: z).takeWhile Char.isDigit = ds := by
      rw [takeWhile_append_all hdig]
      simp [List.takeWhile_cons]
    rw [htw]
    have : ds.isEmpty = false := by
      cases ds with
      | nil => exact absurd rfl hne
      | cons d dr => rfl
    simp [this]

theorem markerMatchLen_head_ne {c : Char} (z : Text) (hc : c ≠ 'G') :
    markerMatchLen (c :: z) = none := by
  have htok : MARKER_TOKEN = 'G' :: "MEXMARKER-".toList := by decide
  have hnp : ¬ MARKER_TOKEN <+: (c :: z) := by
    rw [htok, List.cons_prefix_cons]
    rintro ⟨h1, -⟩
    exact hc h1.symm
  have hpf : MARKER_TOKEN.isPrefixOf (c :: z) = false := by
    rw [← Bool.not_eq_true]
    exact fun hx => hnp (List.isPrefixOf_iff_prefix.mp hx)
  simp [markerMatchLen, hpf]

theorem token_prefix_of_match {c : Char} {cs : Text} {len : Nat}
    (hm : markerMatchLen (c :: cs) = some len) : MARKER_TOKEN <+: (c :: cs) := by
  by_contra hnp
  have hpf : MARKER_TOKEN.isPrefixOf (c :: cs) = false := by
    rw [← Bool.not_eq_true]
    exact fun hx => hnp (List.isPrefixOf_iff_prefix.mp hx)
  simp [markerMatchLen, hpf] at hm

theorem clean_drop_eq {c : Char} {cs : Text} {len : Nat}
    (hc : CleanMarkers (c :: cs)) (hm : markerMatchLen (c :: cs) = some len) :
    ∃ z, (c :: cs).drop len = '\n' :: z ∧
      (c :: cs).length = len + 1 + z.length ∧ CleanMarkers ('\n' :: z) := by
  obtain ⟨ds, z, hne, hdig, hteq, hm2⟩ := markerMatch_of_clean hc (token_prefix_of_match hm)
  have hlen : len = MARKER_TOKEN.length + ds.length := by
    rw [hm] at hm2
    exact Option.some.inj hm2
  have hdropEq : (c :: cs).drop len = '\n' :: z := by
    rw [hteq]
    have hL : (MARKER_TOKEN ++ ds).length = len := by
      rw [List.length_append]
      omega
    rw [← hL, List.drop_left]
  refine ⟨z, hdropEq, ?_, ?_⟩
  · have := congrArg List.length hteq
    simp only [List.length_append, List.length_cons] at this
    simp only [List.length_cons]
    omega
  · have h2 := cleanMarkers_drop len hc
    rwa [hdropEq] at h2

theorem cleanMarkers_tail {c : Char} {cs : Text} (hc : CleanMarkers (c :: cs)) :
    CleanMarkers cs := by
  have := cleanMarkers_drop 1 hc
  simpa using this

theorem prefix_strip_of_no_marker_chars :
    ∀ n t q, t.length ≤ n → CleanMarkers t → 'G' ∉ q → '\n' ∉ q →
      q <+: stripMarkers t → q <+: t := by
  intro n
  induction n with
  | zero =>
    intro t q ht _ _ _ hq
    cases t with
    | nil => exact hq
    | cons c cs => simp at ht
  | succ n ih =>
    intro t q ht hc hG hN hq
    cases t with
    | nil => exact hq
    | cons c cs =>
      cases hm : markerMatchLen (c :: cs) with
      | some len =>
        obtain ⟨z, hdropEq, hlen, hcz⟩ := clean_drop_eq hc hm
        rw [stripMarkers_cons_match hm, hdropEq,
          stripMarkers_cons_nomatch (markerMatchLen_head_ne z (by decide))] at hq
        cases q with
        | nil => exact List.nil_prefix
        | cons e q' =>
          rw [List.cons_prefix_cons] at hq
          have : '\n' ∈ e :: q' := by
            rw [hq.1]
            exact List.mem_cons_self _ _
          exact absurd this hN
      | none =>
        rw [stripMarkers_cons_nomatch hm] at hq
        cases q with
        | nil => exact List.nil_prefix
        | cons e q' =>
          rw [List.cons_prefix_cons] at hq ⊢
          refine ⟨hq.1, ?_⟩
          refine ih cs q' ?_ (cleanMarkers_tail hc) ?_ ?_ hq.2
          · simp only [List.length_cons] at ht
            omega
          · exact fun hx => hG (List.mem_cons_of_mem _ hx)
          · exact fun hx => hN (List.mem_cons_of_mem _ hx)

theorem noOcc_stripMarkers_of_clean :
    ∀ n t, t.length ≤ n → CleanMarkers t → NoOcc MARKER_TOKEN (stripMarkers t) := by
  intro n
  induction n with
  | zero =>
    intro t ht _
    cases t with
    | nil => exact noOcc_nil _ (by decide)
    | cons c cs => simp at ht
  | succ n ih =>
    intro t ht hc
    cases t with
    | nil => exact noOcc_nil _ (by decide)
    | cons c cs =>
      cases hm : markerMatchLen (c :: cs) with
      | some len =>
        obtain ⟨z, hdropEq, hlen, hcz⟩ := clean_drop_eq hc hm
        rw [stripMarkers_cons_match hm, hdropEq]
        have hb := markerMatchLen_bounds hm
        refine ih ('\n' :: z) ?_ hcz
        simp only [List.length_cons] at ht hlen ⊢
        omega
      | none =>
        rw [stripMarkers_cons_nomatch hm, noOcc_cons_iff]
        constructor
        · intro hpre
          have htok : MARKER_TOKEN = 'G' :: "MEXMARKER-".toList := by decide
          rw [htok, List.cons_prefix_cons] at hpre
          obtain ⟨hce, hrest⟩ := hpre
          have hq : "MEXMARKER-".toList <+: cs :=
            prefix_strip_of_no_marker_chars cs.length cs _ le_rfl
              (cleanMarkers_tail hc) (by decide) (by decide) hrest
          have hp : MARKER_TOKEN <+: c :: cs := by
            rw [htok, List.cons_prefix_cons]
            exact ⟨hce, hq⟩
          obtain ⟨ds, z, _, _, _, hm2⟩ := markerMatch_of_clean hc hp
          rw [hm] at hm2
          exact Option.noConfusion hm2
        · refine ih cs ?_ (cleanMarkers_tail hc)
          simp only [List.length_cons] at ht
          omega

/-! ### Escaping preserves absence of the token -/

theorem replaceAllChar_cons (c : Char) (rep : Text) (d : Char) (xs : Text) :
    replaceAllChar c rep (d :: xs) =
      (if d = c then rep else [d]) ++ replaceAllChar c rep xs := by
  simp [replaceAllChar]

theorem prefix_replaceAllChar_iff (c : Char) (rep : Text) (hrep : rep ≠ []) :
    ∀ t q, (∀ e ∈ q, e ≠ c) → (∀ e ∈ q, e ∉ rep) →
      (q <+: replaceAllChar c rep t ↔ q <+: t) := by
  intro t
  induction t with
  | nil =>
    intro q _ _
    exact Iff.rfl
  | cons d xs ih =>
    intro q h1 h2
    rw [replaceAllChar_cons]
    by_cases hd : d = c
    · rw [if_pos hd]
      cases q with
      | nil => simp [List.nil_prefix]
      | cons e q' =>
        have he : e ≠ c := h1 e (List.mem_cons_self e q')
        have her : e ∉ rep := h2 e (List.mem_cons_self e q')
        constructor
        · intro hpre
          cases hr : rep with
          | nil => exact absurd hr hrep
          | cons r0 rr =>
            rw [hr, List.cons_append, List.cons_prefix_cons] at hpre
            have : e ∈ rep := by
              rw [hr, hpre.1]
              exact List.mem_cons_self r0 rr
            exact absurd this her
        · intro hpre
          rw [List.cons_prefix_cons] at hpre
          exact absurd (hpre.1.trans hd) he
    · rw [if_neg hd, List.singleton_append]
      cases q with
      | nil => simp [List.nil_prefix]
      | cons e q' =>
        rw [List.cons_prefix_cons, List.cons_prefix_cons]
        have hq1 : ∀ x ∈ q', x ≠ c := fun x hx => h1 x (List.mem_cons_of_mem e hx)
        have hq2 : ∀ x ∈ q', x ∉ rep := fun x hx => h2 x (List.mem_cons_of_mem e hx)
        rw [ih q' hq1 hq2]

theorem noOcc_replaceAllChar (pat : Text) (c : Char) (rep : Text)
    (hrep : rep ≠ []) (hc : c ∉ pat) (hdisj : ∀ e ∈ rep, e ∉ pat) :
    ∀ t, NoOcc pat t → NoOcc pat (replaceAllChar c rep t) := by
  intro t
  induction t with
  | nil =>
    intro h
    exact h
  | cons d xs ih =>
    intro h
    have hne : pat ≠ [] := by
      intro hp
      exact (h 0) (hp ▸ List.nil_prefix)
    rw [noOcc_cons_iff] at h
    rw [replaceAllChar_cons]
    by_cases hd : d = c
    · rw [if_pos hd]
      exact noOcc_append_of_disjoint_left pat rep _ hne hdisj (ih h.2)
    · rw [if_neg hd, List.singleton_append]
      rw [noOcc_cons_iff]
      refine ⟨?_, ih h.2⟩
      intro hpre
      cases hp : pat with
      | nil => exact hne hp
      | cons p0 pr =>
        rw [hp, List.cons_prefix_cons] at hpre
        have hprxs : pr <+: xs := by
          refine (prefix_replaceAllChar_iff c rep hrep xs pr ?_ ?_).mp hpre.2
          · intro e he heq
            have : c ∈ pat := by
              rw [hp, ← heq]
              exact List.mem_cons_of_mem p0 he
            exact hc this
          · intro e he hein
            have : e ∈ pat := by
              rw [hp]
              exact List.mem_cons_of_mem p0 he
            exact hdisj e hein this
        apply h.1
        rw [hp, List.cons_prefix_cons]
        exact ⟨hpre.1, hprxs⟩

theorem noOcc_escapeHtml (t : Text) (h : NoOcc MARKER_TOKEN t) :
    NoOcc MARKER_TOKEN (escapeHtml t) := by
  unfold escapeHtml
  refine noOcc_replaceAllChar _ '>' _ (by decide) (by decide) (by decide) _ ?_
  refine noOcc_replaceAllChar _ '<' _ (by decide) (by decide) (by decide) _ ?_
  exact noOcc_replaceAllChar _ '&' _ (by decide) (by decide) (by decide) _ h

/-! ### Residual token scanner -/

/-- A MARKER_RE match (the token literal followed by a digit) starting at
the head of the text. -/
def isTokenAt (t : Text) : Bool :=
  MARKER_TOKEN.isPrefixOf t &&
    (((t.drop MARKER_TOKEN.length).head?.map Char.isDigit).getD false)

/-- A residual marker token occurring anywhere in the text. -/
def hasTokenB : Text → Bool
  | [] => false
  | c :: cs => isTokenAt (c :: cs) || hasTokenB cs

theorem hasTokenB_eq_false_of_noOcc :
    ∀ t, NoOcc MARKER_TOKEN t → hasTokenB t = false := by
  intro t
  induction t with
  | nil => intro _; rfl
  | cons c cs ih =>
    intro h
    rw [noOcc_cons_iff] at h
    rw [hasTokenB, Bool.or_eq_false_iff]
    refine ⟨?_, ih h.2⟩
    rw [isTokenAt]
    have hx : MARKER_TOKEN.isPrefixOf (c :: cs) = false := by
      rw [← Bool.not_eq_true]
      exact fun hx => h.1 (List.isPrefixOf_iff_prefix.mp hx)
    rw [hx, Bool.false_and]

theorem cleanMarkers_of_cleanMarkersB :
    ∀ t, cleanMarkersB t = true → CleanMarkers t := by
  intro t
  induction t with
  | nil =>
    intro _ i hp
    rw [List.drop_nil] at hp
    exact absurd (List.prefix_nil.mp hp) (by decide)
  | cons c cs ih =>
    intro h i hp
    rw [cleanMarkersB, Bool.and_eq_true] at h
    cases i with
    | succ j =>
      have hj := ih h.2 j (by simpa using hp)
      obtain ⟨ds, h1, h2, h3⟩ := hj
      refine ⟨ds, h1, h2, ?_⟩
      have : (c :: cs).drop (j + 1 + MARKER_TOKEN.length) =
          cs.drop (j + MARKER_TOKEN.length) := by
        have e : j + 1 + MARKER_TOKEN.length = (j + MARKER_TOKEN.length) + 1 := by omega
        rw [e, List.drop_succ_cons]
      rw [this]
      exact h3
    | zero =>
      rw [List.drop_zero] at hp
      have hpf : MARKER_TOKEN.isPrefixOf (c :: cs) = true :=
        List.isPrefixOf_iff_prefix.mpr hp
      rw [if_pos hpf] at h
      obtain ⟨hhead, -⟩ := h
      simp only [Bool.and_eq_true, Bool.not_eq_true'] at hhead
      obtain ⟨hne, hnl⟩ := hhead
      refine ⟨((c :: cs).drop MARKER_TOKEN.length).takeWhile Char.isDigit, ?_, ?_, ?_⟩
      · intro hx
        rw [hx] at hne
        exact Bool.false_ne_true (by simpa using hne.symm)
      · intro d hd
        exact List.mem_takeWhile_imp hd
      · rw [Nat.zero_add]
        set r := (c :: cs).drop MARKER_TOKEN.length with hr
        set ds := r.takeWhile Char.isDigit with hds
        have hsplit : r = ds ++ r.drop ds.length := by
          have hpfx : ds <+: r := hds ▸ List.takeWhile_prefix _
          have := List.prefix_iff_eq_take.mp hpfx
          conv_lhs => rw [← List.take_append_drop ds.length r]
          rw [← this]
        cases hdr : r.drop ds.length with
        | nil => rw [hdr] at hnl; simp at hnl
        | cons a w =>
          rw [hdr] at hnl
          have ha : a = '\n' := by simpa using hnl
          rw [hsplit, hdr, ha]
          exact ⟨w, by simp⟩

/-! ### Claim C7 -/

theorem noOcc_fallbackHtml (rawTex : Text) (h : CleanMarkers rawTex) :
    NoOcc MARKER_TOKEN (fallbackHtml rawTex) := by
  unfold fallbackHtml
  refine noOcc_append_of_disjoint_right _ _ _ (by decide) ?_ (by decide)
  refine noOcc_append_of_disjoint_left _ _ _ (by decide) (by decide) ?_
  exact noOcc_escapeHtml _ (noOcc_stripMarkers_of_clean rawTex.length rawTex le_rfl h)

theorem renderSeries_failed_state (s : SeriesRec) (force : Bool) (fullTex : Text)
    (normalize : Text → Text) (run : RendererRun)
    (hskip : (renderSeries s force fullTex normalize run).2 ≠ RenderOutcome.skippedUpToDate)
    (hfail : run.rc ≠ 0 ∨ (stripWs run.htmlOut).isEmpty = true) :
    (renderSeries s force fullTex normalize run).1.renderStatus = RenderStatus.failed ∧
      (renderSeries s force fullTex normalize run).1.htmlContent =
        fallbackHtml (normalize fullTex) := by
  unfold renderSeries at hskip ⊢
  by_cases h1 : force = false ∧ s.texChecksum = renderChecksum fullTex ∧
      s.renderStatus = RenderStatus.ok
  · rw [if_pos h1] at hskip
    exact absurd rfl hskip
  · rw [if_neg h1]
    rw [if_pos hfail]
    exact ⟨rfl, rfl⟩

/-- C7 (amended): whenever the renderer exits non-zero or yields blank
HTML (and the document was not skipped), render_series stores status
failed and html_content equal to the marker-stripped, HTML-escaped
normalized TeX wrapped in a single preformatted block; the stored HTML
is guaranteed free of residual marker tokens whenever every occurrence
of the token prefix in the normalized TeX is a complete injected marker
line (token, digits, newline) — the shape marker injection produces.
(Unconditionally the token-freeness can fail: see the splicing
counterexample.) -/
theorem C7_renderer_failure_fallback (s : SeriesRec) (force : Bool) (fullTex : Text)
    (normalize : Text → Text) (run : RendererRun)
    (hskip : (renderSeries s force fullTex normalize run).2 ≠ RenderOutcome.skippedUpToDate)
    (hfail : run.rc ≠ 0 ∨ (stripWs run.htmlOut).isEmpty = true) :
    (renderSeries s force fullTex normalize run).1.renderStatus = RenderStatus.failed ∧
    (renderSeries s force fullTex normalize run).1.htmlContent =
      "<pre>".toList ++ escapeHtml (stripMarkers (normalize fullTex)) ++ "</pre>".toList ∧
    (cleanMarkersB (normalize fullTex) = true →
      hasTokenB (renderSeries s force fullTex normalize run).1.htmlContent = false) := by
  obtain ⟨hst, hhtml⟩ := renderSeries_failed_state s force fullTex normalize run hskip hfail
  refine ⟨hst, hhtml, fun hclean => ?_⟩
  rw [hhtml]
  exact hasTokenB_eq_false_of_noOcc _
    (noOcc_fallbackHtml _ (cleanMarkers_of_cleanMarkersB _ hclean))

/-- Witness for C7 at a concrete failed render of marker-injected TeX,
exercising the blank-HTML trigger: exit code 0 with whitespace-only
renderer output. -/
theorem C7_renderer_failure_fallback_witness :
    ((renderSeries ⟨[], RenderStatus.notRendered, []⟩ false ("x".toList)
        (fun _ => "GMEXMARKER-1\nx".toList) ⟨0, "  ".toList⟩).2 ≠
      RenderOutcome.skippedUpToDate) ∧
      ((0 : Int) ≠ 0 ∨ (stripWs ("  ".toList)).isEmpty = true) ∧
      cleanMarkersB ((fun (_ : Text) => "GMEXMARKER-1\nx".toList) ("x".toList)) = true ∧
      ((renderSeries ⟨[], RenderStatus.notRendered, []⟩ false ("x".toList)
          (fun _ => "GMEXMARKER-1\nx".toList) ⟨0, "  ".toList⟩).1.renderStatus =
        RenderStatus.failed ∧
      (renderSeries ⟨[], RenderStatus.notRendered, []⟩ false ("x".toList)
          (fun _ => "GMEXMARKER-1\nx".toList) ⟨0, "  ".toList⟩).1.htmlContent =
        "<pre>".toList ++
          escapeHtml (stripMarkers ((fun _ => "GMEXMARKER-1\nx".toList) ("x".toList))) ++
          "</pre>".toList ∧
      (cleanMarkersB ((fun (_ : Text) => "GMEXMARKER-1\nx".toList) ("x".toList)) = true →
        hasTokenB (renderSeries ⟨[], RenderStatus.notRendered, []⟩ false ("x".toList)
            (fun _ => "GMEXMARKER-1\nx".toList) ⟨0, "  ".toList⟩).1.htmlContent = false)) :=
  ⟨by decide, by decide, by decide,
    C7_renderer_failure_fallback ⟨[], RenderStatus.notRendered, []⟩ false ("x".toList)
      (fun _ => "GMEXMARKER-1\nx".toList) ⟨0, "  ".toList⟩ (by decide) (by decide)⟩

/-- C7 counterexample to the unconditional token-freeness: one-pass
stripping of the adversarial TeX "GMEXMARKEGMEXMARKER-1R-2" splices a new
marker token into the stored fallback HTML, so the claim that the stored
HTML never contains residual raw marker tokens fails as stated. -/
theorem C7_spliced_token_counterexample :
    (renderSeries ⟨[], RenderStatus.notRendered, []⟩ false
        ("GMEXMARKEGMEXMARKER-1R-2".toList) id ⟨1, []⟩).1.renderStatus =
      RenderStatus.failed ∧
    hasTokenB ((renderSeries ⟨[], RenderStatus.notRendered, []⟩ false
        ("GMEXMARKEGMEXMARKER-1R-2".toList) id ⟨1, []⟩).1.htmlContent) = true := by
  constructor
  · decide
  · decide

/-! ### Trailing-newline invariance of the line-level matchers -/

theorem prefix_append_singleton_iff (pat x : Text) (c : Char)
    (h : pat.getLast? ≠ some c) : pat <+: x ++ [c] ↔ pat <+: x := by
  constructor
  · intro h1
    have hlen : pat.length ≤ x.length + 1 := by
      have := h1.length_le
      simpa using this
    by_cases hfit : pat.length ≤ x.length
    · exact prefix_of_prefix_append pat x [c] h1 hfit
    · have heq : pat = x ++ [c] := by
        refine h1.eq_of_length ?_
        simp only [List.length_append, List.length_cons, List.length_nil]
        omega
      rw [heq, List.getLast?_concat] at h
      exact absurd rfl h
  · intro h2
    exact h2.trans (List.prefix_append x [c])

theorem isPrefixOf_append_singleton (pat x : Text) (c : Char)
    (h : pat.getLast? ≠ some c) :
    pat.isPrefixOf (x ++ [c]) = pat.isPrefixOf x := by
  by_cases hx : pat <+: x ++ [c]
  · rw [List.isPrefixOf_iff_prefix.mpr hx,
      List.isPrefixOf_iff_prefix.mpr ((prefix_append_singleton_iff pat x c h).mp hx)]
  · have h2 : ¬ pat <+: x := fun hp => hx ((prefix_append_singleton_iff pat x c h).mpr hp)
    have e1 : pat.isPrefixOf (x ++ [c]) = false := by
      rw [← Bool.not_eq_true]
      exact fun ht => hx (List.isPrefixOf_iff_prefix.mp ht)
    have e2 : pat.isPrefixOf x = false := by
      rw [← Bool.not_eq_true]
      exact fun ht => h2 (List.isPrefixOf_iff_prefix.mp ht)
    rw [e1, e2]

theorem lowerT_append (x y : Text) : lowerT (x ++ y) = lowerT x ++ lowerT y := by
  simp [lowerT]

theorem isPrefixOfCI_append_singleton (pat x : Text) (c : Char)
    (h : (lowerT pat).getLast? ≠ some c.toLower) :
    isPrefixOfCI pat (x ++ [c]) = isPrefixOfCI pat x := by
  unfold isPrefixOfCI
  rw [lowerT_append]
  exact isPrefixOf_append_singleton (lowerT pat) (lowerT x) c.toLower h

theorem searchPos_le_length (m : Text → Bool) :
    ∀ t i, searchPos m t = some i → i ≤ t.length := by
  intro t
  induction t with
  | nil =>
    intro i h
    rw [searchPos] at h
    split_ifs at h with hm0
    have hi : i = 0 := (Option.some.inj h).symm
    simp [hi]
  | cons c cs ih =>
    intro i h
    rw [searchPos] at h
    split_ifs at h with hm
    · have : i = 0 := by simpa using h.symm
      omega
    · cases hs : searchPos m cs with
      | none => rw [hs] at h; simp at h
      | some j =>
        rw [hs] at h
        simp only [Option.map_some'] at h
        have := ih j hs
        have hij : j + 1 = i := Option.some.inj h
        simp only [List.length_cons]
        omega

theorem searchPos_append_nl (m : Text → Bool)
    (hm : ∀ z, m (z ++ ['\n']) = m z) (hemp : m [] = false) :
    ∀ b, searchPos m (b ++ ['\n']) = searchPos m b := by
  intro b
  induction b with
  | nil =>
    have h1 : m ['\n'] = false := by
      have := hm []
      simpa [hemp] using this
    simp [searchPos, h1, hemp]
  | cons x b ih =>
    rw [List.cons_append, searchPos, searchPos]
    have hx : m (x :: (b ++ ['\n'])) = m (x :: b) := by
      have := hm (x :: b)
      simpa using this
    rw [hx, ih]

theorem findUnescapedPercentAux_append_nl :
    ∀ b prev i, findUnescapedPercentAux prev (b ++ ['\n']) i =
      findUnescapedPercentAux prev b i := by
  intro b
  induction b with
  | nil =>
    intro prev i
    simp [findUnescapedPercentAux]
  | cons x b ih =>
    intro prev i
    rw [List.cons_append, findUnescapedPercentAux, findUnescapedPercentAux]
    split_ifs with hx
    · rfl
    · exact ih (some x) (i + 1)

theorem findUnescapedPercent_append_nl (b : Text) :
    findUnescapedPercent (b ++ ['\n']) = findUnescapedPercent b :=
  findUnescapedPercentAux_append_nl b none 0

theorem lineHas_append_nl (m : Text → Bool)
    (hm : ∀ z, m (z ++ ['\n']) = m z) (hemp : m [] = false) (b : Text) :
    lineHasUncommentedMatch (searchPos m) (b ++ ['\n']) =
      lineHasUncommentedMatch (searchPos m) b := by
  unfold lineHasUncommentedMatch
  rw [searchPos_append_nl m hm hemp]
  cases hs : searchPos m b with
  | none => rfl
  | some s =>
    rw [findUnescapedPercent_append_nl]
    have hsl : s ≤ b.length := searchPos_le_length m b s hs
    simp only [List.take_append_of_le_length hsl]

theorem lineHas_stripNl (m : Text → Bool)
    (hm : ∀ z, m (z ++ ['\n']) = m z) (hemp : m [] = false) (l : Text) :
    lineHasUncommentedMatch (searchPos m) (stripNl l) =
      lineHasUncommentedMatch (searchPos m) l := by
  unfold stripNl
  split_ifs with hl
  · have hdec : l = l.dropLast ++ ['\n'] := by
      conv_lhs => rw [← List.dropLast_append_getLast? '\n' hl]
    conv_rhs => rw [hdec]
    rw [lineHas_append_nl m hm hemp]
  · rfl

theorem wsBraceHead_append_nl (r : Text) :
    (decide (((r ++ ['\n']).dropWhile isPySpace).head? = some lbrace) : Bool) =
      decide ((r.dropWhile isPySpace).head? = some lbrace) := by
  rw [List.dropWhile_append]
  cases hd : r.dropWhile isPySpace with
  | nil => simp [isPySpace]
  | cons a as => simp

theorem atBeginProblem_append_nl (z : Text) :
    atBeginProblem (z ++ ['\n']) = atBeginProblem z := by
  unfold atBeginProblem
  exact isPrefixOfCI_append_singleton _ z '\n' (by decide)

theorem atBeginExercise_append_nl (z : Text) :
    atBeginExercise (z ++ ['\n']) = atBeginExercise z := by
  unfold atBeginExercise
  exact isPrefixOfCI_append_singleton _ z '\n' (by decide)

theorem isPrefixOfCI_length_le {pat t : Text} (h : isPrefixOfCI pat t = true) :
    pat.length ≤ t.length := by
  have := (List.isPrefixOf_iff_prefix.mp h).length_le
  simpa [lowerT] using this

theorem atCmdOpenBrace_append_nl (cmd : Text)
    (hlast : (lowerT cmd).getLast? ≠ some (Char.toLower '\n')) (z : Text) :
    atCmdOpenBrace cmd (z ++ ['\n']) = atCmdOpenBrace cmd z := by
  unfold atCmdOpenBrace
  rw [isPrefixOfCI_append_singleton cmd z '\n' hlast]
  by_cases hp : isPrefixOfCI cmd z = true
  · have hlen : cmd.length ≤ z.length := isPrefixOfCI_length_le hp
    rw [List.drop_append_of_le_length hlen]
    rw [hp, Bool.true_and, Bool.true_and]
    exact wsBraceHead_append_nl (z.drop cmd.length)
  · rw [Bool.not_eq_true] at hp
    rw [hp, Bool.false_and, Bool.false_and]

theorem atSubsectionBrace_append_nl (z : Text) :
    atSubsectionBrace (z ++ ['\n']) = atSubsectionBrace z := by
  unfold atSubsectionBrace
  rw [isPrefixOfCI_append_singleton _ z '\n' (by decide)]
  by_cases hp : isPrefixOfCI "\\subsection".toList z = true
  · have hlen : ("\\subsection".toList : Text).length ≤ z.length := isPrefixOfCI_length_le hp
    have hlen11 : (11 : Nat) ≤ z.length := by
      simpa using hlen
    rw [List.drop_append_of_le_length hlen11]
    rw [hp, Bool.true_and, Bool.true_and]
    cases hr : z.drop 11 with
    | nil => simp [isPySpace]
    | cons a as =>
      simp only [List.cons_append, List.head?_cons]
      by_cases ha : a = '*'
      · simp only [ha, if_pos rfl, List.tail_cons]
        exact wsBraceHead_append_nl as
      · have hne : ¬ (some a = some '*') := by
          intro hx
          exact ha (Option.some.inj hx)
        simp only [if_neg hne]
        exact wsBraceHead_append_nl (a :: as)
  · rw [Bool.not_eq_true] at hp
    rw [hp, Bool.false_and, Bool.false_and]

theorem atBraceCmd_append_nl (cmd : Text)
    (hlast : (lowerT (lbrace :: cmd)).getLast? ≠ some (Char.toLower '\n')) (z : Text) :
    atBraceCmd cmd (z ++ ['\n']) = atBraceCmd cmd z := by
  unfold atBraceCmd
  rw [isPrefixOfCI_append_singleton _ z '\n' hlast]
  by_cases hp : isPrefixOfCI (lbrace :: cmd) z = true
  · have hlen : (lbrace :: cmd).length ≤ z.length := isPrefixOfCI_length_le hp
    have hlen2 : 1 + cmd.length ≤ z.length := by
      simp only [List.length_cons] at hlen
      omega
    rw [List.drop_append_of_le_length hlen2]
    rw [hp, Bool.true_and, Bool.true_and]
    cases hw : z.drop (1 + cmd.length) with
    | nil => simp [isWordChar]
    | cons a as => simp
  · rw [Bool.not_eq_true] at hp
    rw [hp, Bool.false_and, Bool.false_and]

/-- Every pattern of the injector treats a line and the line with its
trailing newline identically, so counting over splitlines() and injecting
over splitlines(keepends=True) agree. -/
theorem exercisePatterns_lineHas_stripNl :
    ∀ p ∈ exercisePatterns, ∀ l : Text,
      lineHasUncommentedMatch p (stripNl l) = lineHasUncommentedMatch p l := by
  intro p hp l
  simp only [exercisePatterns, List.mem_cons, List.not_mem_nil, or_false] at hp
  rcases hp with h | h | h | h | h | h | h
  · subst h
    exact lineHas_stripNl _ atBeginProblem_append_nl (by decide) l
  · subst h
    exact lineHas_stripNl _ atBeginExercise_append_nl (by decide) l
  · subst h
    exact lineHas_stripNl _ (atCmdOpenBrace_append_nl _ (by decide)) (by decide) l
  · subst h
    exact lineHas_stripNl _ (atCmdOpenBrace_append_nl _ (by decide)) (by decide) l
  · subst h
    exact lineHas_stripNl _ atSubsectionBrace_append_nl (by decide) l
  · subst h
    exact lineHas_stripNl _ (atBraceCmd_append_nl _ (by decide)) (by decide) l
  · subst h
    exact lineHas_stripNl _ (atBraceCmd_append_nl _ (by decide)) (by decide) l

/-! ### Structure of the injected line list -/

theorem markerLine_token_lead (k : Nat) :
    MARKER_TOKEN.isPrefixOf (markerLine k) = true := by
  rw [List.isPrefixOf_iff_prefix]
  unfold markerLine
  rw [List.append_assoc]
  exact List.prefix_append _ _

theorem injectAux_cons_pos {p : Text → Option Nat} {count : Nat} {l : Text}
    {idx : Nat} (h : idx < count ∧ lineHasUncommentedMatch p l = true)
    (ls : List Text) :
    injectMarkersAux p count (l :: ls) idx =
      (markerLine (idx + 1) :: l :: (injectMarkersAux p count ls (idx + 1)).1,
        (injectMarkersAux p count ls (idx + 1)).2) := by
  rw [injectMarkersAux, if_pos h]

theorem injectAux_cons_neg {p : Text → Option Nat} {count : Nat} {l : Text}
    {idx : Nat} (h : ¬ (idx < count ∧ lineHasUncommentedMatch p l = true))
    (ls : List Text) :
    injectMarkersAux p count (l :: ls) idx =
      (l :: (injectMarkersAux p count ls idx).1,
        (injectMarkersAux p count ls idx).2) := by
  rw [injectMarkersAux, if_neg h]

theorem injectAux_snd_ge (p : Text → Option Nat) (count : Nat) :
    ∀ ls idx, idx ≤ (injectMarkersAux p count ls idx).2 := by
  intro ls
  induction ls with
  | nil => intro idx; exact le_refl _
  | cons l ls ih =>
    intro idx
    by_cases h : idx < count ∧ lineHasUncommentedMatch p l = true
    · rw [injectAux_cons_pos h ls]
      exact le_trans (Nat.le_succ idx) (ih (idx + 1))
    · rw [injectAux_cons_neg h ls]
      exact ih idx

theorem injectAux_snd (p : Text → Option Nat) (count : Nat) :
    ∀ ls idx, idx ≤ count →
      (injectMarkersAux p count ls idx).2 =
        min count (idx + ls.countP (fun l => lineHasUncommentedMatch p l)) := by
  intro ls
  induction ls with
  | nil =>
    intro idx h
    simp only [injectMarkersAux, List.countP_nil, Nat.add_zero]
    omega
  | cons l ls ih =>
    intro idx h
    by_cases hcase : idx < count ∧ lineHasUncommentedMatch p l = true
    · rw [injectAux_cons_pos hcase ls]
      rw [ih (idx + 1) (by omega)]
      rw [List.countP_cons]
      simp only [hcase.2, if_true]
      omega
    · rw [injectAux_cons_neg hcase ls, ih idx h, List.countP_cons]
      by_cases hl : lineHasUncommentedMatch p l = true
      · have hnc : ¬ idx < count := fun hlt => hcase ⟨hlt, hl⟩
        simp only [hl, if_true]
        omega
      · simp only [Bool.not_eq_true] at hl
        simp [hl]

theorem injectAux_filter_nonmarker (p : Text → Option Nat) (count : Nat) :
    ∀ ls idx, (∀ l ∈ ls, MARKER_TOKEN.isPrefixOf l = false) →
      (injectMarkersAux p count ls idx).1.filter
        (fun l => !MARKER_TOKEN.isPrefixOf l) = ls := by
  intro ls
  induction ls with
  | nil => intro idx _; rfl
  | cons l ls ih =>
    intro idx hclean
    have hl : MARKER_TOKEN.isPrefixOf l = false := hclean l (List.mem_cons_self l ls)
    have hrest : ∀ x ∈ ls, MARKER_TOKEN.isPrefixOf x = false :=
      fun x hx => hclean x (List.mem_cons_of_mem l hx)
    by_cases hcase : idx < count ∧ lineHasUncommentedMatch p l = true
    · rw [injectAux_cons_pos hcase ls]
      rw [List.filter_cons_of_neg (by simp [markerLine_token_lead])]
      rw [List.filter_cons_of_pos (by simp [hl])]
      rw [ih (idx + 1) hrest]
    · rw [injectAux_cons_neg hcase ls]
      rw [List.filter_cons_of_pos (by simp [hl])]
      rw [ih idx hrest]

theorem injectAux_filter_marker (p : Text → Option Nat) (count : Nat) :
    ∀ ls idx, (∀ l ∈ ls, MARKER_TOKEN.isPrefixOf l = false) →
      (injectMarkersAux p count ls idx).1.filter
        (fun l => MARKER_TOKEN.isPrefixOf l) =
        (List.range' (idx + 1) ((injectMarkersAux p count ls idx).2 - idx)).map
          markerLine := by
  intro ls
  induction ls with
  | nil =>
    intro idx _
    simp [injectMarkersAux]
  | cons l ls ih =>
    intro idx hclean
    have hl : MARKER_TOKEN.isPrefixOf l = false := hclean l (List.mem_cons_self l ls)
    have hrest : ∀ x ∈ ls, MARKER_TOKEN.isPrefixOf x = false :=
      fun x hx => hclean x (List.mem_cons_of_mem l hx)
    by_cases hcase : idx < count ∧ lineHasUncommentedMatch p l = true
    · rw [injectAux_cons_pos hcase ls]
      rw [List.filter_cons_of_pos (markerLine_token_lead _)]
      rw [List.filter_cons_of_neg (by simp [hl])]
      rw [ih (idx + 1) hrest]
      have hge : idx + 1 ≤ (injectMarkersAux p count ls (idx + 1)).2 :=
        injectAux_snd_ge p count ls (idx + 1)
      have hsub : (injectMarkersAux p count ls (idx + 1)).2 - idx =
          ((injectMarkersAux p count ls (idx + 1)).2 - (idx + 1)) + 1 := by
        omega
      rw [hsub]
      rfl
    · rw [injectAux_cons_neg hcase ls]
      rw [List.filter_cons_of_neg (by simp [hl])]
      rw [ih idx hrest]

theorem injectAux_adjacent (p : Text → Option Nat) (count : Nat) :
    ∀ ls idx, (∀ l ∈ ls, MARKER_TOKEN.isPrefixOf l = false) →
      ∀ pr ∈ (injectMarkersAux p count ls idx).1.zip
        (injectMarkersAux p count ls idx).1.tail,
        MARKER_TOKEN.isPrefixOf pr.1 = true →
          lineHasUncommentedMatch p pr.2 = true := by
  intro ls
  induction ls with
  | nil =>
    intro idx _ pr hpr
    simp [injectMarkersAux] at hpr
  | cons l ls ih =>
    intro idx hclean pr hpr hmk
    have hl : MARKER_TOKEN.isPrefixOf l = false := hclean l (List.mem_cons_self l ls)
    have hrest : ∀ x ∈ ls, MARKER_TOKEN.isPrefixOf x = false :=
      fun x hx => hclean x (List.mem_cons_of_mem l hx)
    by_cases hcase : idx < count ∧ lineHasUncommentedMatch p l = true
    · rw [injectAux_cons_pos hcase ls] at hpr
      simp only [List.tail_cons, List.zip_cons_cons, List.mem_cons] at hpr
      rcases hpr with heq | hpr2
      · rw [heq]
        exact hcase.2
      · cases hF : (injectMarkersAux p count ls (idx + 1)).1 with
        | nil => rw [hF] at hpr2; simp at hpr2
        | cons f0 F =>
          rw [hF, List.zip_cons_cons, List.mem_cons] at hpr2
          rcases hpr2 with heq2 | hpr3
          · rw [heq2] at hmk
            simp only at hmk
            rw [hl] at hmk
            exact absurd hmk (by simp)
          · have hih := ih (idx + 1) hrest pr
            rw [hF, List.tail_cons] at hih
            exact hih hpr3 hmk
    · rw [injectAux_cons_neg hcase ls] at hpr
      simp only [List.tail_cons] at hpr
      cases hF : (injectMarkersAux p count ls idx).1 with
      | nil => rw [hF] at hpr; simp at hpr
      | cons f0 F =>
        rw [hF, List.zip_cons_cons, List.mem_cons] at hpr
        rcases hpr with heq | hpr2
        · rw [heq] at hmk
          simp only at hmk
          rw [hl] at hmk
          exact absurd hmk (by simp)
        · have hih := ih idx hrest pr
          rw [hF, List.tail_cons] at hih
          exact hih hpr2 hmk

theorem injectAux_getLast (p : Text → Option Nat) (count : Nat) :
    ∀ ls idx, (∀ l ∈ ls, MARKER_TOKEN.isPrefixOf l = false) →
      ∀ x, (injectMarkersAux p count ls idx).1.getLast? = some x →
        MARKER_TOKEN.isPrefixOf x = false := by
  intro ls
  induction ls with
  | nil =>
    intro idx _ x hx
    simp [injectMarkersAux] at hx
  | cons l ls ih =>
    intro idx hclean x hx
    have hl : MARKER_TOKEN.isPrefixOf l = false := hclean l (List.mem_cons_self l ls)
    have hrest : ∀ y ∈ ls, MARKER_TOKEN.isPrefixOf y = false :=
      fun y hy => hclean y (List.mem_cons_of_mem l hy)
    by_cases hcase : idx < count ∧ lineHasUncommentedMatch p l = true
    · rw [injectAux_cons_pos hcase ls] at hx
      rw [List.getLast?_cons_cons] at hx
      cases hF : (injectMarkersAux p count ls (idx + 1)).1 with
      | nil =>
        rw [hF] at hx
        have : x = l := by simpa using hx.symm
        rw [this]
        exact hl
      | cons f0 F =>
        rw [hF, List.getLast?_cons_cons] at hx
        have hih := ih (idx + 1) hrest x
        rw [hF] at hih
        exact hih hx
    · rw [injectAux_cons_neg hcase ls] at hx
      cases hF : (injectMarkersAux p count ls idx).1 with
      | nil =>
        rw [hF] at hx
        have : x = l := by simpa using hx.symm
        rw [this]
        exact hl
      | cons f0 F =>
        rw [hF, List.getLast?_cons_cons] at hx
        have hih := ih idx hrest x
        rw [hF] at hih
        exact hih hx

/-! ### Claim C6 -/

theorem countKeep_eq (p : Text → Option Nat) (hp : p ∈ exercisePatterns) (t : Text) :
    (splitlinesKeep t).countP (fun l => lineHasUncommentedMatch p l) =
      countPatternMatches t p := by
  unfold countPatternMatches splitlines
  rw [List.countP_map]
  apply List.countP_congr
  intro l _
  simp only [Function.comp_apply]
  rw [exercisePatterns_lineHas_stripNl p hp l]

theorem injectLoop_none (tex preT body suf : Text) (n : Nat) :
    ∀ ps, (∀ q ∈ ps, countPatternMatches body q ≠ n) →
      injectLoop tex preT body suf n ps = (tex, 0) := by
  intro ps
  induction ps with
  | nil => intro _; rfl
  | cons p ps ih =>
    intro h
    rw [injectLoop, if_neg (h p (List.mem_cons_self p ps))]
    exact ih fun q hq => h q (List.mem_cons_of_mem _ hq)

theorem injectLoop_first (tex preT body suf : Text) (n : Nat)
    (p : Text → Option Nat) (post : List (Text → Option Nat)) :
    ∀ pre, (∀ q ∈ pre, countPatternMatches body q ≠ n) →
      countPatternMatches body p = n →
      injectLoop tex preT body suf n (pre ++ p :: post) =
        (preT ++ (injectMarkersForPattern body p n).1 ++ suf,
          (injectMarkersForPattern body p n).2) := by
  intro pre
  induction pre with
  | nil =>
    intro _ hcnt
    rw [List.nil_append, injectLoop, if_pos hcnt]
  | cons q pre ih =>
    intro hpre hcnt
    rw [List.cons_append, injectLoop, if_neg (hpre q (List.mem_cons_self q pre))]
    exact ih (fun r hr => hpre r (List.mem_cons_of_mem _ hr)) hcnt

/-- C6 (confirmed): the injector tries its ordered pattern list; if no
pattern's comment-aware, non-macro-definition line-level match count over
the document body equals N (or N = 0), the TeX is returned unchanged with
zero markers; for the first pattern whose count equals N exactly, the
result reports N injected markers and the body is replaced by a line list
in which the marker lines are exactly the tokens 1..N in order, the
non-marker lines are exactly the original body lines, and every marker
line stands directly before a line with an uncommented match.  (The
dedicated-line characterization assumes no original body line itself
starts with the marker token.) -/
theorem C6_marker_injection (tex : Text) (n : Nat) :
    ((n = 0 ∨ ∀ p ∈ exercisePatterns, countPatternMatches (docParts tex).2.1 p ≠ n) →
      injectExerciseMarkers tex n = (tex, 0)) ∧
    (∀ pre p post, n ≠ 0 → exercisePatterns = pre ++ p :: post →
      (∀ q ∈ pre, countPatternMatches (docParts tex).2.1 q ≠ n) →
      countPatternMatches (docParts tex).2.1 p = n →
      (∀ l ∈ splitlinesKeep (docParts tex).2.1, MARKER_TOKEN.isPrefixOf l = false) →
      (injectExerciseMarkers tex n).2 = n ∧
      ∃ out : List Text,
        (injectExerciseMarkers tex n).1 =
          (docParts tex).1 ++ out.flatten ++ (docParts tex).2.2 ∧
        out.filter (fun l => MARKER_TOKEN.isPrefixOf l) =
          (List.range' 1 n).map markerLine ∧
        out.filter (fun l => !MARKER_TOKEN.isPrefixOf l) =
          splitlinesKeep (docParts tex).2.1 ∧
        (∀ pr ∈ out.zip out.tail, MARKER_TOKEN.isPrefixOf pr.1 = true →
          lineHasUncommentedMatch p pr.2 = true) ∧
        (∀ x, out.getLast? = some x → MARKER_TOKEN.isPrefixOf x = false)) := by
  constructor
  · intro h
    unfold injectExerciseMarkers
    by_cases hn : n = 0
    · rw [if_pos hn]
    · rw [if_neg hn]
      rcases h with h0 | hall
      · exact absurd h0 hn
      · exact injectLoop_none tex _ _ _ n exercisePatterns hall
  · intro pre p post hn hdecomp hpre hcnt hclean
    have hploop := injectLoop_first tex (docParts tex).1 (docParts tex).2.1
      (docParts tex).2.2 n p post pre hpre hcnt
    have hres : injectExerciseMarkers tex n =
        ((docParts tex).1 ++ (injectMarkersForPattern (docParts tex).2.1 p n).1 ++
            (docParts tex).2.2,
          (injectMarkersForPattern (docParts tex).2.1 p n).2) := by
      unfold injectExerciseMarkers
      rw [if_neg hn, hdecomp]
      exact hploop
    have hpmem : p ∈ exercisePatterns := by
      rw [hdecomp]
      exact List.mem_append_right _ (List.mem_cons_self _ _)
    have hkeep : (splitlinesKeep (docParts tex).2.1).countP
        (fun l => lineHasUncommentedMatch p l) = n := by
      rw [countKeep_eq p hpmem]
      exact hcnt
    have hsnd : (injectMarkersForPattern (docParts tex).2.1 p n).2 = n := by
      unfold injectMarkersForPattern
      rw [injectAux_snd p n _ 0 (Nat.zero_le n), hkeep]
      simp
    refine ⟨by rw [hres]; exact hsnd,
      (injectMarkersAux p n (splitlinesKeep (docParts tex).2.1) 0).1, ?_, ?_, ?_, ?_, ?_⟩
    · rw [hres]
      rfl
    · rw [injectAux_filter_marker p n _ 0 hclean]
      have haux2 : (injectMarkersAux p n (splitlinesKeep (docParts tex).2.1) 0).2 = n := by
        simpa [injectMarkersForPattern] using hsnd
      rw [haux2]
      simp
    · exact injectAux_filter_nonmarker p n _ 0 hclean
    · exact injectAux_adjacent p n _ 0 hclean
    · exact injectAux_getLast p n _ 0 hclean

/-- A concrete document for the injection witness. -/
def injectSampleTex : Text :=
  "\\begin{document}\nx\n\\begin{problem}\nA\n\\end{document}\n".toList

/-- Witness for C6: a concrete body with exactly one problem environment
receives exactly one dedicated marker line. -/
theorem C6_marker_injection_witness :
    ((1 : Nat) ≠ 0) ∧
    countPatternMatches (docParts injectSampleTex).2.1 (searchPos atBeginProblem) = 1 ∧
    (∀ l ∈ splitlinesKeep (docParts injectSampleTex).2.1,
      MARKER_TOKEN.isPrefixOf l = false) ∧
    ((injectExerciseMarkers injectSampleTex 1).2 = 1 ∧
      ∃ out : List Text,
        (injectExerciseMarkers injectSampleTex 1).1 =
          (docParts injectSampleTex).1 ++ out.flatten ++ (docParts injectSampleTex).2.2 ∧
        out.filter (fun l => MARKER_TOKEN.isPrefixOf l) =
          (List.range' 1 1).map markerLine ∧
        out.filter (fun l => !MARKER_TOKEN.isPrefixOf l) =
          splitlinesKeep (docParts injectSampleTex).2.1 ∧
        (∀ pr ∈ out.zip out.tail, MARKER_TOKEN.isPrefixOf pr.1 = true →
          lineHasUncommentedMatch (searchPos atBeginProblem) pr.2 = true) ∧
        (∀ x, out.getLast? = some x → MARKER_TOKEN.isPrefixOf x = false)) :=
  ⟨by decide, by decide, by decide,
    (C6_marker_injection injectSampleTex 1).2 [] (searchPos atBeginProblem)
      [searchPos atBeginExercise,
       searchPos (atCmdOpenBrace "\\exercise".toList),
       searchPos (atCmdOpenBrace "\\uebung".toList),
       searchPos atSubsectionBrace,
       searchPos (atBraceCmd "\\utit".toList),
       searchPos (atBraceCmd "\\uutit".toList)]
      (by decide) rfl (by simp) (by decide) (by decide)⟩

/-! ### Claim C8 -/

/-- C8 (amended): comment tolerance does not hold for every normalization
pass (the solution-environment rewrite substitutes inside comments, see
the counterexample), but it does hold in the marker-injection machinery:
a pattern match beginning strictly after the first unescaped percent of
its line is ignored by _line_has_uncommented_match, and marker injection
keeps every original line — hence every comment remainder — verbatim, in
order, as the non-marker lines of its output. -/
theorem C8_comment_tolerance (p : Text → Option Nat) (line : Text) (s cpos : Nat)
    (n : Nat) (ls : List Text)
    (hclean : ∀ l ∈ ls, MARKER_TOKEN.isPrefixOf l = false)
    (hmatch : p line = some s) (hcomm : findUnescapedPercent line = some cpos)
    (hafter : cpos < s) :
    lineHasUncommentedMatch p line = false ∧
    ((injectMarkersAux p n ls 0).1.filter
        (fun l => !MARKER_TOKEN.isPrefixOf l)).map commentRemainder =
      ls.map commentRemainder := by
  constructor
  · unfold lineHasUncommentedMatch
    rw [hmatch, hcomm]
    have hd : s > cpos := hafter
    simp [hd]
  · rw [injectAux_filter_nonmarker p n ls 0 hclean]

/-- Witness for C8 on a commented-out problem environment. -/
theorem C8_comment_tolerance_witness :
    searchPos atBeginProblem ("% \\begin{problem}".toList) = some 2 ∧
    findUnescapedPercent ("% \\begin{problem}".toList) = some 0 ∧
    (0 : Nat) < 2 ∧
    (∀ l ∈ [("x\n".toList : Text)], MARKER_TOKEN.isPrefixOf l = false) ∧
    (lineHasUncommentedMatch (searchPos atBeginProblem) ("% \\begin{problem}".toList) =
        false ∧
      ((injectMarkersAux (searchPos atBeginProblem) 1 [("x\n".toList : Text)] 0).1.filter
          (fun l => !MARKER_TOKEN.isPrefixOf l)).map commentRemainder =
        [("x\n".toList : Text)].map commentRemainder) :=
  ⟨by decide, by decide, by decide, by decide,
    C8_comment_tolerance (searchPos atBeginProblem) ("% \\begin{problem}".toList) 2 0 1
      [("x\n".toList : Text)] (by decide) (by decide) (by decide) (by decide)⟩

/-- C8 counterexample: the solution-environment pass rewrites a match
inside a TeX comment, altering the text from the percent to the end of
the line, so the claim fails for that pass as stated. -/
theorem C8_wrap_solution_comment_counterexample :
    (splitlines (wrapSolutionEnvironments true ("% \\begin{solution} x\n".toList))).map
        commentRemainder ≠
      (splitlines ("% \\begin{solution} x\n".toList)).map commentRemainder := by
  decide

/-! ### render_api.py / render_worker.py: the render-job supervisor

The job record persisted in the database and the supervisor's in-memory
state are modelled separately, exactly as the source separates the ORM row
from the local variables of _run_command_for_job.  Wall-clock times are
milliseconds; the 0.6 s flush interval becomes 600.  Timestamp columns
(created/started/finished/updated) are not modelled; no claim depends on
their values. -/

inductive JStatus
  | queued
  | running
  | succeeded
  | failed
  | cancelled
deriving DecidableEq, Repr

/-- The RenderJob columns the supervisor reads and writes. -/
structure JobDB where
  status : JStatus
  totalCount : Nat
  processedCount : Nat
  renderedCount : Nat
  skippedCount : Nat
  failedCount : Nat
  currentSeriesId : Option Nat
  pid : Option Nat
  returnCode : Option Int
  outputLog : Text
deriving DecidableEq, Repr

def LOG_LIMIT_CHARS : Nat := 200000

/-- The supervisor's in-memory state (_JobState plus the in-memory job
object whose counters _run_command_for_job mutates). -/
structure SupMem where
  completed : List Nat
  lastFlushAt : Nat
  log : Text
  processedCount : Nat
  renderedCount : Nat
  skippedCount : Nat
  failedCount : Nat
  currentSeriesId : Option Nat
deriving DecidableEq, Repr

/-- _append_log: accumulate and keep only the bounded tail. -/
def appendLog (log chunk : Text) : Text :=
  if chunk.isEmpty then log
  else
    let l2 := log ++ chunk
    if LOG_LIMIT_CHARS < l2.length then l2.drop (l2.length - LOG_LIMIT_CHARS) else l2

def natOfDigits (ds : Text) : Nat :=
  ds.foldl (fun a c => a * 10 + (c.toNat - 48)) 0

/-- The progress-line regex: Series, whitespace, digits, a colon,
whitespace, then the message (matched against the stripped line; the
message is stripped again as in the source). -/
def parseSeriesLine (line : Text) : Option (Nat × Text) :=
  let raw := stripWs line
  if "Series".toList.isPrefixOf raw then
    let r1 := raw.drop 6
    let ws1 := r1.takeWhile isPySpace
    if ws1.isEmpty then none
    else
      let r2 := r1.drop ws1.length
      let ds := r2.takeWhile Char.isDigit
      if ds.isEmpty then none
      else
        match r2.drop ds.length with
        | ':' :: r4 =>
          let ws2 := r4.takeWhile isPySpace
          if ws2.isEmpty then none
          else some (natOfDigits ds, stripWs (r4.drop ws2.length))
        | _ => none
  else none

inductive OutcomeKind
  | rendered
  | skipped
  | failedDoc
deriving DecidableEq, Repr

/-- mark_completed: record a document outcome at most once per id. -/
def markCompleted (m : SupMem) (sid : Nat) (k : OutcomeKind) : SupMem :=
  if sid ∈ m.completed then m
  else
    { m with
      completed := sid :: m.completed,
      processedCount := m.processedCount + 1,
      renderedCount := m.renderedCount + (if k = OutcomeKind.rendered then 1 else 0),
      skippedCount := m.skippedCount + (if k = OutcomeKind.skipped then 1 else 0),
      failedCount := m.failedCount + (if k = OutcomeKind.failedDoc then 1 else 0) }

/-- handle_line: log, parse, classify, count. -/
def handleLine (m0 : SupMem) (line : Text) : SupMem :=
  let m := { m0 with log := appendLog m0.log line }
  match parseSeriesLine line with
  | none => m
  | some (sid, msg) =>
    let m := { m with currentSeriesId := some sid }
    if "inserted ".toList.isPrefixOf msg then m
    else if msg = "rendered".toList then markCompleted m sid OutcomeKind.rendered
    else if containsSub "up-to-date, skipping".toList msg then
      markCompleted m sid OutcomeKind.skipped
    else markCompleted m sid OutcomeKind.failedDoc

def handleLines (m : SupMem) (lines : List Text) : SupMem :=
  lines.foldl handleLine m

/-- The fields a counter flush writes to the job row. -/
def flushCounters (db : JobDB) (m : SupMem) : JobDB :=
  { db with
    outputLog := m.log,
    processedCount := m.processedCount,
    renderedCount := m.renderedCount,
    skippedCount := m.skippedCount,
    failedCount := m.failedCount,
    currentSeriesId := m.currentSeriesId }

/-- The initial, always-forced flush: became-running transition. -/
def flushRunning (db : JobDB) (m : SupMem) (now : Nat) (pidv : Nat) (total : Nat) :
    JobDB × SupMem :=
  let dbc := flushCounters db m
  ({ dbc with status := JStatus.running, pid := some pidv, totalCount := total },
    { m with lastFlushAt := now })

/-- The rate-limited per-line flush (at most one write per 600 ms). -/
def flushProgress (db : JobDB) (m : SupMem) (now : Nat) : JobDB × SupMem :=
  if now - m.lastFlushAt < 600 then (db, m)
  else (flushCounters db m, { m with lastFlushAt := now })

/-- One renderer subprocess invocation as observed by the supervisor:
its combined-output lines with their arrival times and its exit code. -/
structure CommandRun where
  startTime : Nat
  events : List (Nat × Text)
  rc : Int
  pidv : Nat
deriving Repr

/-- Load the in-memory state from the job row, as the top of
_run_command_for_job does. -/
def loadMem (db : JobDB) : SupMem :=
  { completed := [], lastFlushAt := 0, log := db.outputLog,
    processedCount := db.processedCount, renderedCount := db.renderedCount,
    skippedCount := db.skippedCount, failedCount := db.failedCount,
    currentSeriesId := db.currentSeriesId }

def supStep (acc : JobDB × SupMem) (ev : Nat × Text) : JobDB × SupMem :=
  flushProgress acc.1 (handleLine acc.2 ev.2) ev.1

/-- render_api._run_command_for_job.  cancelDuring models an external
cancel request persisting status=cancelled while the process runs.  With
finalize=false only pid, return code and log are written at the end (the
counters are left at their last rate-limited flush); with finalize=true
the terminal status is computed from the refetched row: cancellation is
preserved, else a non-zero exit or a non-zero PERSISTED failed counter
means failed — the terminal write still omits the counters. -/
def runCommandApi (db : JobDB) (run : CommandRun) (totalOverride : Option Nat)
    (finalize : Bool) (cancelDuring : Bool) : JobDB :=
  let m0 := loadMem db
  let total := totalOverride.getD db.totalCount
  let s1 := flushRunning db m0 run.startTime run.pidv total
  let s2 := run.events.foldl supStep s1
  let db2 := if cancelDuring then { s2.1 with status := JStatus.cancelled } else s2.1
  if finalize = false then
    { db2 with pid := none, returnCode := some run.rc, outputLog := s2.2.log }
  else
    let finalStatus :=
      if db2.status = JStatus.cancelled then JStatus.cancelled
      else if run.rc ≠ 0 then JStatus.failed
      else if 0 < db2.failedCount then JStatus.failed
      else JStatus.succeeded
    { db2 with
      status := finalStatus, pid := none, returnCode := some run.rc,
      outputLog := s2.2.log }

/-- render_worker._run_command_for_job: identical loop, but the terminal
and non-terminal writes persist the in-memory counters, and the terminal
status consults the IN-MEMORY failed counter. -/
def runCommandWorker (db : JobDB) (run : CommandRun) (totalOverride : Option Nat)
    (finalize : Bool) (cancelDuring : Bool) : JobDB :=
  let m0 := loadMem db
  let total := totalOverride.getD db.totalCount
  let s1 := flushRunning db m0 run.startTime run.pidv total
  let s2 := run.events.foldl supStep s1
  let m2 := s2.2
  let db2 := if cancelDuring then { s2.1 with status := JStatus.cancelled } else s2.1
  let dbc := flushCounters db2 m2
  if finalize = false then
    { dbc with pid := none, returnCode := some run.rc, totalCount := total }
  else
    let finalStatus :=
      if db2.status = JStatus.cancelled then JStatus.cancelled
      else if run.rc ≠ 0 then JStatus.failed
      else if 0 < m2.failedCount then JStatus.failed
      else JStatus.succeeded
    { dbc with
      status := finalStatus, pid := none,
      returnCode := some run.rc, totalCount := total }

/-- cancel_render_job: terminal jobs are returned untouched; otherwise
the status is set to cancelled and the live child, if any, is signalled. -/
def cancelRenderJob (db : JobDB) (procAlive : Bool) : JobDB × JStatus × Bool :=
  if db.status ≠ JStatus.running ∧ db.status ≠ JStatus.queued then
    (db, db.status, false)
  else ({ db with status := JStatus.cancelled }, JStatus.cancelled, procAlive)

/-- The per-id loop of _start_job for scope=series: before each document
the loop re-reads the row and stops if it was cancelled; an external
cancel request arriving right after the k-th processed document is
modelled by applying the cancel endpoint at that point; the list of
series ids actually attempted is returned alongside the row. -/
def startJobSeriesLoop (runDoc : Nat → JobDB → JobDB) (cancelAfterIdx : Nat) :
    List Nat → Nat → JobDB → JobDB × List Nat
  | [], _, db => (db, [])
  | sid :: rest, k, db =>
    if db.status = JStatus.cancelled then (db, [])
    else
      let db1 := runDoc sid db
      let db2 := if k = cancelAfterIdx then (cancelRenderJob db1 true).1 else db1
      let r := startJobSeriesLoop runDoc cancelAfterIdx rest (k + 1) db2
      (r.1, sid :: r.2)

/-- The final write of _start_job for scope=series: a cancelled row keeps
its status; otherwise succeeded exactly when the persisted failed counter
is zero, with return_code recorded as 0 — the per-document exit codes
were discarded. -/
def startJobSeriesFinalize (db : JobDB) : JobDB :=
  if db.status = JStatus.cancelled then { db with pid := none }
  else
    { db with
      status := if db.failedCount = 0 then JStatus.succeeded else JStatus.failed,
      pid := none, returnCode := some 0 }

def startJobSeries (db0 : JobDB) (ids : List Nat) (runDoc : Nat → JobDB → JobDB)
    (cancelAfterIdx : Nat) : JobDB × List Nat :=
  let r := startJobSeriesLoop runDoc cancelAfterIdx ids 0 db0
  (startJobSeriesFinalize r.1, r.2)

/-- A freshly created queued job row. -/
def freshJobDB (total : Nat) : JobDB :=
  { status := JStatus.queued, totalCount := total, processedCount := 0,
    renderedCount := 0, skippedCount := 0, failedCount := 0,
    currentSeriesId := none, pid := none, returnCode := none, outputLog := [] }

/-- The stdout line "Series <id>: <msg>" with a trailing newline. -/
def seriesLine (sid : Nat) (msg : Text) : Text :=
  "Series ".toList ++ (Nat.repr sid).toList ++ ':' :: ' ' :: msg ++ ['\n']

/-! ### Claim C10 -/

/-- C10 (confirmed): cancelling a job whose status is already terminal
returns the stored status and changes nothing: the row is untouched and
no process is signalled. -/
theorem C10_cancel_terminal_noop (db : JobDB) (procAlive : Bool)
    (h : db.status = JStatus.succeeded ∨ db.status = JStatus.failed ∨
      db.status = JStatus.cancelled) :
    cancelRenderJob db procAlive = (db, db.status, false) := by
  unfold cancelRenderJob
  rcases h with h | h | h <;>
    rw [if_pos ⟨by rw [h]; decide, by rw [h]; decide⟩]

theorem C10_cancel_terminal_noop_witness :
    cancelRenderJob { freshJobDB 3 with status := JStatus.succeeded } true =
      ({ freshJobDB 3 with status := JStatus.succeeded },
        { freshJobDB 3 with status := JStatus.succeeded }.status, false) :=
  C10_cancel_terminal_noop { freshJobDB 3 with status := JStatus.succeeded } true
    (Or.inl (by decide))

/-! ### Claim C5 -/

/-- The four job counters held in memory. -/
def supCounters (m : SupMem) : Nat × Nat × Nat × Nat :=
  (m.processedCount, m.renderedCount, m.skippedCount, m.failedCount)

theorem markCompleted_eq_of_mem (m : SupMem) (sid : Nat) (k : OutcomeKind)
    (h : sid ∈ m.completed) : markCompleted m sid k = m := by
  unfold markCompleted
  rw [if_pos h]

theorem markCompleted_mem (m : SupMem) (sid : Nat) (k : OutcomeKind) :
    sid ∈ (markCompleted m sid k).completed := by
  unfold markCompleted
  by_cases h : sid ∈ m.completed
  · rw [if_pos h]; exact h
  · rw [if_neg h]; exact List.mem_cons_self _ _

theorem handleLine_counters_none (m : SupMem) (line : Text)
    (hp : parseSeriesLine line = none) :
    supCounters (handleLine m line) = supCounters m := by
  unfold handleLine
  rw [hp]
  rfl

theorem handleLine_counters_inserted (m : SupMem) (line : Text) (sid : Nat) (msg : Text)
    (hp : parseSeriesLine line = some (sid, msg))
    (hins : "inserted ".toList.isPrefixOf msg = true) :
    supCounters (handleLine m line) = supCounters m := by
  unfold handleLine
  rw [hp]
  simp only [hins, if_pos]
  rfl

theorem handleLine_mem_completed (m : SupMem) (line : Text) (sid : Nat) (msg : Text)
    (hp : parseSeriesLine line = some (sid, msg))
    (hins : "inserted ".toList.isPrefixOf msg = false) :
    sid ∈ (handleLine m line).completed := by
  unfold handleLine
  rw [hp]
  simp only [hins, Bool.false_eq_true, if_false]
  by_cases hrend : msg = "rendered".toList
  · rw [if_pos hrend]; exact markCompleted_mem _ _ _
  · rw [if_neg hrend]
    by_cases hskip : containsSub "up-to-date, skipping".toList msg = true
    · rw [if_pos hskip]; exact markCompleted_mem _ _ _
    · rw [if_neg hskip]; exact markCompleted_mem _ _ _

theorem supCounters_markCompleted_of_mem (m : SupMem) (sid : Nat) (k : OutcomeKind)
    (h : sid ∈ m.completed) : supCounters (markCompleted m sid k) = supCounters m := by
  rw [markCompleted_eq_of_mem _ _ _ h]

theorem handleLine_counters_of_mem (m : SupMem) (line : Text) (sid : Nat) (msg : Text)
    (hp : parseSeriesLine line = some (sid, msg)) (hmem : sid ∈ m.completed) :
    supCounters (handleLine m line) = supCounters m := by
  unfold handleLine
  rw [hp]
  by_cases hins : "inserted ".toList.isPrefixOf msg = true
  · simp only [hins, if_pos]
    rfl
  · rw [Bool.not_eq_true] at hins
    simp only [hins, Bool.false_eq_true, if_false]
    by_cases hrend : msg = "rendered".toList
    · rw [if_pos hrend]
      refine (supCounters_markCompleted_of_mem _ _ _ ?_).trans rfl
      exact hmem
    · rw [if_neg hrend]
      by_cases hskip : containsSub "up-to-date, skipping".toList msg = true
      · rw [if_pos hskip]
        refine (supCounters_markCompleted_of_mem _ _ _ ?_).trans rfl
        exact hmem
      · rw [if_neg hskip]
        refine (supCounters_markCompleted_of_mem _ _ _ ?_).trans rfl
        exact hmem

/-- C5 (amended): processing the same progress line twice changes the
counters exactly as processing it once — a line for an id whose outcome
is recorded is ignored for counting; concretely, the duplicated line
"Series 42: rendered" increments rendered and processed by exactly 1.
(As literally stated with the bare line "42: rendered" the claim fails:
such a line lacks the Series prefix of the progress regex and increments
nothing, see the counterexample.) -/
theorem C5_duplicate_line_counted_once (m : SupMem) (line : Text) :
    supCounters (handleLine (handleLine m line) line) =
      supCounters (handleLine m line) ∧
    (handleLines (loadMem (freshJobDB 2))
        [seriesLine 42 ("rendered".toList), seriesLine 42 ("rendered".toList)]).renderedCount
        = 1 ∧
    (handleLines (loadMem (freshJobDB 2))
        [seriesLine 42 ("rendered".toList), seriesLine 42 ("rendered".toList)]).processedCount
        = 1 := by
  refine ⟨?_, by decide, by decide⟩
  cases hp : parseSeriesLine line with
  | none => exact handleLine_counters_none _ _ hp
  | some pr =>
    by_cases hins : "inserted ".toList.isPrefixOf pr.2 = true
    · exact handleLine_counters_inserted _ _ pr.1 pr.2 hp hins
    · rw [Bool.not_eq_true] at hins
      exact handleLine_counters_of_mem _ _ pr.1 pr.2 hp
        (handleLine_mem_completed m line pr.1 pr.2 hp hins)

/-- C5 counterexample: the literal duplicated line "42: rendered" (as in
the claim) matches nothing — the supervisor's regex requires the Series
prefix — so the counters increase by 0, not by 1. -/
theorem C5_bare_line_counterexample :
    (handleLines (loadMem (freshJobDB 2))
        [("42: rendered".toList), ("42: rendered".toList)]).renderedCount = 0 ∧
    (handleLines (loadMem (freshJobDB 2))
        [("42: rendered".toList), ("42: rendered".toList)]).processedCount = 0 := by
  constructor
  · decide
  · decide

/-! ### Claim C3 -/

/-- The terminal-status rule exactly as the claim states it (spec-side
definition, to be compared with the code paths). -/
def claimTerminalStatus (wasCancelled : Bool) (rc : Int) (failedCount : Nat) : JStatus :=
  if wasCancelled then JStatus.cancelled
  else if rc ≠ 0 ∨ 0 < failedCount then JStatus.failed
  else JStatus.succeeded

theorem foldl_supStep_status :
    ∀ (events : List (Nat × Text)) (s : JobDB × SupMem),
      ((events.foldl supStep s).1).status = s.1.status := by
  intro events
  induction events with
  | nil => intro s; rfl
  | cons ev events ih =>
    intro s
    rw [List.foldl_cons, ih]
    unfold supStep flushProgress
    split_ifs with h
    · rfl
    · rfl

/-- C3 (amended): the worker module's single-command path with finalize
computes the terminal status exactly by the claimed rule — cancelled
stays cancelled, else a non-zero exit code or a non-zero (in-memory,
which this path also persists) failed counter means failed, else
succeeded.  The API module's explicit-set path does NOT obey the rule:
it runs each document without finalize, discards the per-document exit
codes and finalizes from the persisted failed counter alone with
return_code 0 (see the counterexample). -/
theorem C3_terminal_status_rule (db : JobDB) (run : CommandRun)
    (totalOverride : Option Nat) (cancelDuring : Bool) :
    (runCommandWorker db run totalOverride true cancelDuring).status =
      claimTerminalStatus cancelDuring run.rc
        (runCommandWorker db run totalOverride true cancelDuring).failedCount := by
  unfold runCommandWorker claimTerminalStatus
  rw [if_neg (by decide : ¬ ((true : Bool) = false))]
  have hst : ((run.events.foldl supStep
      (flushRunning db (loadMem db) run.startTime run.pidv
        (totalOverride.getD db.totalCount))).1).status = JStatus.running := by
    rw [foldl_supStep_status]
    rfl
  cases hcd : cancelDuring with
  | true =>
    simp
  | false =>
    simp only [Bool.false_eq_true, if_neg (by simp : ¬ False), if_neg]
    simp only [flushCounters]
    have hnc : ¬ ((run.events.foldl supStep
        (flushRunning db (loadMem db) run.startTime run.pidv
          (totalOverride.getD db.totalCount))).1).status = JStatus.cancelled := by
      rw [hst]
      decide
    rw [if_neg hnc]
    by_cases hrc : run.rc ≠ 0
    · rw [if_pos hrc, if_pos (Or.inl hrc)]
    · rw [if_neg hrc]
      by_cases hf : 0 < ((run.events.foldl supStep
          (flushRunning db (loadMem db) run.startTime run.pidv
            (totalOverride.getD db.totalCount))).2).failedCount
      · rw [if_pos hf, if_pos (Or.inr hf)]
      · rw [if_neg hf, if_neg (by push_neg at hrc hf ⊢; exact ⟨hrc, hf⟩)]

/-- C3 counterexample: an API explicit-set job whose only document's
renderer command exits 7 (with no per-document failure lines and no
cancellation) ends succeeded with return_code recorded as 0, while the
claimed rule demands failed. -/
theorem C3_series_exit_code_ignored_counterexample :
    ((startJobSeries (freshJobDB 1) [1]
        (fun _ db => runCommandApi db ⟨0, [], 7, 77⟩ (some 1) false false) 5).1.status =
      JStatus.succeeded) ∧
    claimTerminalStatus false 7 0 = JStatus.failed ∧
    ((startJobSeries (freshJobDB 1) [1]
        (fun _ db => runCommandApi db ⟨0, [], 7, 77⟩ (some 1) false false) 5).1.returnCode =
      some 0) := by
  refine ⟨by decide, by decide, by decide⟩

/-! ### Claim C9 -/

/-- One document's render command for an explicit-ids job: started at
time t0, it prints its single "Series <sid>: rendered" line at time t1
and exits 0; the api loop runs it without finalize. -/
def runDocAt (t0 t1 : Nat) (sid : Nat) (db : JobDB) : JobDB :=
  runCommandApi db ⟨t0, [(t1, seriesLine sid ("rendered".toList))], 0, 77⟩
    (some 3) false false

set_option maxHeartbeats 2000000 in
theorem runDocAt_slow (t0 t1 : Nat) (h : t0 + 600 ≤ t1) :
    runDocAt t0 t1 1 (freshJobDB 3) =
      { status := JStatus.running, totalCount := 3, processedCount := 1,
        renderedCount := 1, skippedCount := 0, failedCount := 0,
        currentSeriesId := some 1, pid := none, returnCode := some 0,
        outputLog := seriesLine 1 ("rendered".toList) } := by
  have key : flushProgress
      { status := JStatus.running, totalCount := 3, processedCount := 0,
        renderedCount := 0, skippedCount := 0, failedCount := 0,
        currentSeriesId := none, pid := some 77, returnCode := none, outputLog := [] }
      { completed := [1], lastFlushAt := t0,
        log := seriesLine 1 ("rendered".toList), processedCount := 1,
        renderedCount := 1, skippedCount := 0, failedCount := 0,
        currentSeriesId := some 1 } t1 =
      ({ status := JStatus.running, totalCount := 3, processedCount := 1,
         renderedCount := 1, skippedCount := 0, failedCount := 0,
         currentSeriesId := some 1, pid := some 77, returnCode := none,
         outputLog := seriesLine 1 ("rendered".toList) },
       { completed := [1], lastFlushAt := t1,
         log := seriesLine 1 ("rendered".toList), processedCount := 1,
         renderedCount := 1, skippedCount := 0, failedCount := 0,
         currentSeriesId := some 1 }) := by
    unfold flushProgress
    dsimp only
    rw [if_neg (by omega : ¬ (t1 - t0 < 600))]
    rfl
  calc runDocAt t0 t1 1 (freshJobDB 3)
      = { status := (flushProgress
            { status := JStatus.running, totalCount := 3, processedCount := 0,
              renderedCount := 0, skippedCount := 0, failedCount := 0,
              currentSeriesId := none, pid := some 77, returnCode := none,
              outputLog := [] }
            { completed := [1], lastFlushAt := t0,
              log := seriesLine 1 ("rendered".toList), processedCount := 1,
              renderedCount := 1, skippedCount := 0, failedCount := 0,
              currentSeriesId := some 1 } t1).1.status,
          totalCount := (flushProgress
            { status := JStatus.running, totalCount := 3, processedCount := 0,
              renderedCount := 0, skippedCount := 0, failedCount := 0,
              currentSeriesId := none, pid := some 77, returnCode := none,
              outputLog := [] }
            { completed := [1], lastFlushAt := t0,
              log := seriesLine 1 ("rendered".toList), processedCount := 1,
              renderedCount := 1, skippedCount := 0, failedCount := 0,
              currentSeriesId := some 1 } t1).1.totalCount,
          processedCount := (flushProgress
            { status := JStatus.running, totalCount := 3, processedCount := 0,
              renderedCount := 0, skippedCount := 0, failedCount := 0,
              currentSeriesId := none, pid := some 77, returnCode := none,
              outputLog := [] }
            { completed := [1], lastFlushAt := t0,
              log := seriesLine 1 ("rendered".toList), processedCount := 1,
              renderedCount := 1, skippedCount := 0, failedCount := 0,
              currentSeriesId := some 1 } t1).1.processedCount,
          renderedCount := (flushProgress
            { status := JStatus.running, totalCount := 3, processedCount := 0,
              renderedCount := 0, skippedCount := 0, failedCount := 0,
              currentSeriesId := none, pid := some 77, returnCode := none,
              outputLog := [] }
            { completed := [1], lastFlushAt := t0,
              log := seriesLine 1 ("rendered".toList), processedCount := 1,
              renderedCount := 1, skippedCount := 0, failedCount := 0,
              currentSeriesId := some 1 } t1).1.renderedCount,
          skippedCount := (flushProgress
            { status := JStatus.running, totalCount := 3, processedCount := 0,
              renderedCount := 0, skippedCount := 0, failedCount := 0,
              currentSeriesId := none, pid := some 77, returnCode := none,
              outputLog := [] }
            { completed := [1], lastFlushAt := t0,
              log := seriesLine 1 ("rendered".toList), processedCount := 1,
              renderedCount := 1, skippedCount := 0, failedCount := 0,
              currentSeriesId := some 1 } t1).1.skippedCount,
          failedCount := (flushProgress
            { status := JStatus.running, totalCount := 3, processedCount := 0,
              renderedCount := 0, skippedCount := 0, failedCount := 0,
              currentSeriesId := none, pid := some 77, returnCode := none,
              outputLog := [] }
            { completed := [1], lastFlushAt := t0,
              log := seriesLine 1 ("rendered".toList), processedCount := 1,
              renderedCount := 1, skippedCount := 0, failedCount := 0,
              currentSeriesId := some 1 } t1).1.failedCount,
          currentSeriesId := (flushProgress
            { status := JStatus.running, totalCount := 3, processedCount := 0,
              renderedCount := 0, skippedCount := 0, failedCount := 0,
              currentSeriesId := none, pid := some 77, returnCode := none,
              outputLog := [] }
            { completed := [1], lastFlushAt := t0,
              log := seriesLine 1 ("rendered".toList), processedCount := 1,
              renderedCount := 1, skippedCount := 0, failedCount := 0,
              currentSeriesId := some 1 } t1).1.currentSeriesId,
          pid := none, returnCode := some 0,
          outputLog := (flushProgress
            { status := JStatus.running, totalCount := 3, processedCount := 0,
              renderedCount := 0, skippedCount := 0, failedCount := 0,
              currentSeriesId := none, pid := some 77, returnCode := none,
              outputLog := [] }
            { completed := [1], lastFlushAt := t0,
              log := seriesLine 1 ("rendered".toList), processedCount := 1,
              renderedCount := 1, skippedCount := 0, failedCount := 0,
              currentSeriesId := some 1 } t1).2.log } := rfl
    _ = { status := JStatus.running, totalCount := 3, processedCount := 1,
          renderedCount := 1, skippedCount := 0, failedCount := 0,
          currentSeriesId := some 1, pid := none, returnCode := some 0,
          outputLog := seriesLine 1 ("rendered".toList) } := by
        rw [key]

theorem startJobSeriesLoop_cancelled (runDoc : Nat → JobDB → JobDB)
    (ca : Nat) (rest : List Nat) (k : Nat) (db : JobDB)
    (h : db.status = JStatus.cancelled) :
    startJobSeriesLoop runDoc ca rest k db = (db, []) := by
  cases rest with
  | nil => rfl
  | cons a l =>
    unfold startJobSeriesLoop
    rw [if_pos h]

/-- C9 (corrected): for an explicit-ids job over [1,2,3] where document
1's render completes and cancellation is requested before document 2
starts, the job ends cancelled and documents 2 and 3 are never
attempted; the persisted processed_count is 1 PROVIDED the document's
progress line arrived at least 600 ms after the command started, so that
the rate-limited flush wrote the counters (see the counterexample for
the fast case, where processed_count remains 0 because the terminal
write of the series path omits counters). -/
theorem C9_cancel_after_first_document (t0 t1 : Nat) (h : t0 + 600 ≤ t1) :
    (startJobSeries (freshJobDB 3) [1, 2, 3] (runDocAt t0 t1) 0).1.status =
        JStatus.cancelled ∧
      (startJobSeries (freshJobDB 3) [1, 2, 3] (runDocAt t0 t1) 0).1.processedCount = 1 ∧
      (startJobSeries (freshJobDB 3) [1, 2, 3] (runDocAt t0 t1) 0).2 = [1] := by
  have hjob : startJobSeries (freshJobDB 3) [1, 2, 3] (runDocAt t0 t1) 0 =
      ({ status := JStatus.cancelled, totalCount := 3, processedCount := 1,
         renderedCount := 1, skippedCount := 0, failedCount := 0,
         currentSeriesId := some 1, pid := none, returnCode := some 0,
         outputLog := seriesLine 1 ("rendered".toList) }, [1]) := by
    unfold startJobSeries startJobSeriesLoop
    rw [runDocAt_slow t0 t1 h]
    dsimp only
    rw [(by decide :
      (if (0 : Nat) = 0 then
          (cancelRenderJob
            { status := JStatus.running, totalCount := 3, processedCount := 1,
              renderedCount := 1, skippedCount := 0, failedCount := 0,
              currentSeriesId := some 1, pid := none, returnCode := some 0,
              outputLog := seriesLine 1 ("rendered".toList) } true).1
        else
          { status := JStatus.running, totalCount := 3, processedCount := 1,
            renderedCount := 1, skippedCount := 0, failedCount := 0,
            currentSeriesId := some 1, pid := none, returnCode := some 0,
            outputLog := seriesLine 1 ("rendered".toList) }) =
        { status := JStatus.cancelled, totalCount := 3, processedCount := 1,
          renderedCount := 1, skippedCount := 0, failedCount := 0,
          currentSeriesId := some 1, pid := none, returnCode := some 0,
          outputLog := seriesLine 1 ("rendered".toList) })]
    rw [startJobSeriesLoop_cancelled (runDocAt t0 t1) 0 [2, 3] (0 + 1)
      { status := JStatus.cancelled, totalCount := 3, processedCount := 1,
        renderedCount := 1, skippedCount := 0, failedCount := 0,
        currentSeriesId := some 1, pid := none, returnCode := some 0,
        outputLog := seriesLine 1 ("rendered".toList) } rfl]
    decide
  rw [hjob]
  exact ⟨rfl, rfl, rfl⟩

theorem C9_cancel_after_first_document_witness :
    0 + 600 ≤ 1000 ∧
      ((startJobSeries (freshJobDB 3) [1, 2, 3] (runDocAt 0 1000) 0).1.status =
          JStatus.cancelled ∧
        (startJobSeries (freshJobDB 3) [1, 2, 3] (runDocAt 0 1000) 0).1.processedCount = 1 ∧
        (startJobSeries (freshJobDB 3) [1, 2, 3] (runDocAt 0 1000) 0).2 = [1]) :=
  ⟨by decide, C9_cancel_after_first_document 0 1000 (by decide)⟩

/-- C9 counterexample: the same scenario with the document completing
100 ms after start: the per-line flush is rate-limited (under 600 ms
since the forced became-running write), the series-path terminal write
persists no counters, and the job ends cancelled with processed_count 0,
refuting the claim's unconditional processed == 1. -/
theorem C9_fast_completion_counterexample :
    (startJobSeries (freshJobDB 3) [1, 2, 3] (runDocAt 0 100) 0).1.status =
        JStatus.cancelled ∧
      (startJobSeries (freshJobDB 3) [1, 2, 3] (runDocAt 0 100) 0).1.processedCount = 0 := by
  constructor
  · decide
  · decide

/-- A line is in scope when it either parses to no progress record or
names a series id of the job's scope. -/
def lineInScope (scope : Finset Nat) (l : Text) : Bool :=
  match parseSeriesLine l with
  | none => true
  | some pr => decide (pr.1 ∈ scope)

/-- The counter invariant maintained by the supervisor: the processed
count is the sum of the three outcome counters, equals the number of
recorded outcomes, and outcomes are recorded at most once per id, all
ids being in scope. -/
def SupInv (scope : Finset Nat) (m : SupMem) : Prop :=
  m.processedCount = m.renderedCount + m.skippedCount + m.failedCount ∧
  m.processedCount = m.completed.length ∧
  m.completed.Nodup ∧ ∀ sid ∈ m.completed, sid ∈ scope

theorem markCompleted_inv (scope : Finset Nat) (m : SupMem) (sid : Nat)
    (k : OutcomeKind) (hinv : SupInv scope m) (hsid : sid ∈ scope) :
    SupInv scope (markCompleted m sid k) := by
  unfold markCompleted
  by_cases h : sid ∈ m.completed
  · rw [if_pos h]; exact hinv
  · rw [if_neg h]
    obtain ⟨h1, h2, h3, h4⟩ := hinv
    refine ⟨?_, ?_, ?_, ?_⟩
    · cases k <;> simp <;> omega
    · simp [h2]
    · exact List.nodup_cons.mpr ⟨h, h3⟩
    · intro x hx
      rcases List.mem_cons.mp hx with rfl | hx
      · exact hsid
      · exact h4 x hx

theorem handleLine_inv (scope : Finset Nat) (m : SupMem) (line : Text)
    (hinv : SupInv scope m) (hl : lineInScope scope line = true) :
    SupInv scope (handleLine m line) := by
  unfold handleLine
  unfold lineInScope at hl
  cases hp : parseSeriesLine line with
  | none => exact hinv
  | some pr =>
    rw [hp] at hl
    have hsid : pr.1 ∈ scope := of_decide_eq_true hl
    by_cases hins : "inserted ".toList.isPrefixOf pr.2 = true
    · simp only [hins, if_pos]
      exact hinv
    · rw [Bool.not_eq_true] at hins
      simp only [hins, Bool.false_eq_true, if_false]
      by_cases hrend : pr.2 = "rendered".toList
      · rw [if_pos hrend]
        refine markCompleted_inv _ _ _ _ ?_ hsid
        exact hinv
      · rw [if_neg hrend]
        by_cases hskip : containsSub "up-to-date, skipping".toList pr.2 = true
        · rw [if_pos hskip]
          refine markCompleted_inv _ _ _ _ ?_ hsid
          exact hinv
        · rw [if_neg hskip]
          refine markCompleted_inv _ _ _ _ ?_ hsid
          exact hinv

theorem handleLines_inv (scope : Finset Nat) :
    ∀ (lines : List Text) (m : SupMem), SupInv scope m →
      (∀ l ∈ lines, lineInScope scope l = true) →
      SupInv scope (handleLines m lines) := by
  intro lines
  induction lines with
  | nil => intro m hinv _; exact hinv
  | cons l lines ih =>
    intro m hinv hall
    exact ih (handleLine m l)
      (handleLine_inv scope m l hinv (hall l (List.mem_cons_self _ _)))
      (fun x hx => hall x (List.mem_cons_of_mem _ hx))

/-- C4 (confirmed): at every observed point of a run — after any prefix
of the child's progress lines has been handled — the in-memory counters
(which every flush copies verbatim to the row) satisfy
processed = rendered + skipped + failed, and processed stays at or below
the job total, provided each progress line names an id of the job's
scope and the total is at least the scope's size.  The key step is that
mark_completed records each id at most once. -/
theorem C4_counter_invariant (total : Nat) (scope : Finset Nat)
    (lines pfx : List Text)
    (hscope : ∀ l ∈ lines, lineInScope scope l = true)
    (htot : scope.card ≤ total)
    (hpfx : pfx <+: lines) :
    (handleLines (loadMem (freshJobDB total)) pfx).processedCount =
        (handleLines (loadMem (freshJobDB total)) pfx).renderedCount +
          (handleLines (loadMem (freshJobDB total)) pfx).skippedCount +
          (handleLines (loadMem (freshJobDB total)) pfx).failedCount ∧
      (handleLines (loadMem (freshJobDB total)) pfx).processedCount ≤ total := by
  have hfresh : SupInv scope (loadMem (freshJobDB total)) :=
    ⟨rfl, rfl, List.nodup_nil, by intro x hx; cases hx⟩
  obtain ⟨h1, h2, h3, h4⟩ := handleLines_inv scope pfx _ hfresh
    (fun l hl => hscope l (hpfx.subset hl))
  refine ⟨h1, ?_⟩
  rw [h2]
  calc (handleLines (loadMem (freshJobDB total)) pfx).completed.length
      = (handleLines (loadMem (freshJobDB total)) pfx).completed.toFinset.card := by
        rw [List.toFinset_card_of_nodup h3]
    _ ≤ scope.card :=
        Finset.card_le_card (fun x hx => h4 x (List.mem_toFinset.mp hx))
    _ ≤ total := htot

theorem C4_counter_invariant_witness :
    (handleLines (loadMem (freshJobDB 2))
          [seriesLine 1 ("rendered".toList), seriesLine 2 ("boom".toList)]).processedCount =
        (handleLines (loadMem (freshJobDB 2))
            [seriesLine 1 ("rendered".toList), seriesLine 2 ("boom".toList)]).renderedCount +
          (handleLines (loadMem (freshJobDB 2))
              [seriesLine 1 ("rendered".toList), seriesLine 2 ("boom".toList)]).skippedCount +
          (handleLines (loadMem (freshJobDB 2))
              [seriesLine 1 ("rendered".toList), seriesLine 2 ("boom".toList)]).failedCount ∧
      (handleLines (loadMem (freshJobDB 2))
          [seriesLine 1 ("rendered".toList), seriesLine 2 ("boom".toList)]).processedCount ≤ 2 :=
  C4_counter_invariant 2 {1, 2}
    [seriesLine 1 ("rendered".toList), seriesLine 2 ("boom".toList)]
    [seriesLine 1 ("rendered".toList), seriesLine 2 ("boom".toList)]
    (by decide) (by decide) (List.prefix_refl _)

/-- C2 counterexample: checksum equality is not sufficient for skipping,
and rendering the same document twice without force need not skip the
second time: after a first FAILED render the checksum is stored, yet the
second invocation re-renders instead of skipping. -/
theorem C2_failed_render_retries_counterexample :
    (renderSeries
        (renderSeries ⟨[], RenderStatus.notRendered, []⟩ false ("t".toList) id
          ⟨1, []⟩).1 false ("t".toList) id ⟨1, []⟩).2 ≠
      RenderOutcome.skippedUpToDate ∧
      (renderSeries ⟨[], RenderStatus.notRendered, []⟩ false ("t".toList) id
          ⟨1, []⟩).1.texChecksum = renderChecksum ("t".toList) := by
  constructor
  · decide
  · decide

end Goldmine
